import Mathlib

/-
Verification of the Codeception test-adapter core (src/extension.ts) against its
specification.  The TypeScript source is shallowly embedded: every definition below
is a direct translation of the corresponding function in src/extension.ts (the
function names are kept).  File-system access, the VS Code `TestRun` sink and the
child-process runner are modelled as explicit inputs/outputs:
 - `run.started/passed/failed/skipped` calls become an ordered list of `Mark`s
   (the final state of a node is the last mark carrying its id, matching the
   VS Code API where the most recent call wins);
 - `fs.existsSync`/`statSync` on the report file become the `reportExists` /
   `reportStale` input flags (the report-path resolution itself is not claimed);
 - the parsed XML document (fast-xml-parser output) becomes the `JDoc`/`JNode`
   object model, with JS truthiness of string attributes made explicit;
 - strings are processed character-wise (`String.data`) so that every operation
   is structurally recursive and kernel-computable; `path` functions are modelled
   for POSIX separators, which is the only shape the claims exercise.
The VS Code test tree built by discovery is always project → suite → file →
method (→ dataset), so the tree is embedded with one record type per level.
-/

/-! ## Character-level string utilities -/

/-- Chars of `s` after the first occurrence of `c`; `none` when `c` does not occur
(JS `indexOf` returning `-1`). -/
def afterFirstChar (c : Char) : List Char → Option (List Char)
  | [] => none
  | x :: xs => if x = c then some xs else afterFirstChar c xs

/-- JS `String.prototype.trim` on a char list (ASCII whitespace). -/
def trimChars (s : List Char) : List Char :=
  ((s.dropWhile Char.isWhitespace).reverse.dropWhile Char.isWhitespace).reverse

/-- JS `trim()` on a `String`. -/
def strTrim (s : String) : String := String.mk (trimChars s.data)

/-- Boolean string equality through the char lists (kernel-computable). -/
def strEq (a b : String) : Bool := a.data == b.data

/-- JS `String.prototype.endsWith`. -/
def strEndsWith (s suffixStr : String) : Bool := suffixStr.data.isSuffixOf s.data

/-- JS `String.prototype.includes` (substring containment). -/
def listContainsSub : List Char → List Char → Bool
  | s, pat =>
    if pat.isPrefixOf s then true
    else
      match s with
      | [] => false
      | _ :: rest => listContainsSub rest pat

/-- JS `String.prototype.includes` on `String`s. -/
def strContainsSub (s pat : String) : Bool := listContainsSub s.data pat.data

/-- Chars strictly before the first occurrence of the substring `pat`;
`none` when `pat` does not occur.  Models `s.indexOf(pat)` + `s.substring(0, idx)`. -/
def takeBeforeSub : List Char → List Char → Option (List Char)
  | s, pat =>
    if pat.isPrefixOf s then some []
    else
      match s with
      | [] => none
      | c :: rest => (takeBeforeSub rest pat).map (fun l => c :: l)

/-- One global, left-to-right, non-rescanning replacement pass, the semantics of
JS `String.prototype.replace` with a global literal pattern.  Structural in the
fuel so the kernel can evaluate it; the fuel is set to an always-sufficient
`length + 1` by the wrapper (each step consumes at least one character). -/
def replaceAllFuel : Nat → List Char → List Char → List Char → List Char
  | 0, _, _, s => s
  | fuel + 1, pat, repl, s =>
    match s with
    | [] => []
    | c :: cs =>
      if !pat.isEmpty && pat.isPrefixOf (c :: cs) then
        repl ++ replaceAllFuel fuel pat repl ((c :: cs).drop pat.length)
      else
        c :: replaceAllFuel fuel pat repl cs

/-- JS `s.replace(/pat/g, repl)` for a literal `pat`. -/
def replaceAll (pat repl s : List Char) : List Char :=
  replaceAllFuel (s.length + 1) pat repl s

/-- Decimal digits to a `Nat` (JS `Number(...)` on an all-digit string). -/
def digitsToNatAux : List Char → Nat → Nat
  | [], acc => acc
  | c :: cs, acc => digitsToNatAux cs (acc * 10 + (c.toNat - '0'.toNat))

/-- POSIX `path.basename`: strip trailing separators, then keep the last component. -/
def basenameStr (p : String) : String :=
  let r := p.data.reverse.dropWhile (· == '/')
  String.mk (r.takeWhile (· != '/')).reverse

/-- POSIX `path.isAbsolute`. -/
def isAbsolutePath (p : String) : Bool := "/".data.isPrefixOf p.data

/-- POSIX `path.join` of two components (no `..` in the claimed inputs). -/
def pathJoin (a b : String) : String := a ++ "/" ++ b

/-- Value of the JS expression `o || dflt` where `o` is a possibly-undefined string
attribute: an absent or empty string is falsy. -/
def jsOr (o : Option String) (dflt : String) : String :=
  match o with
  | some s => if s.data.isEmpty then dflt else s
  | none => dflt

/-- JS truthiness of a possibly-undefined string. -/
def jsTruthy (o : Option String) : Bool :=
  match o with
  | some s => !s.data.isEmpty
  | none => false

/-! ## `decodeHtmlEntities` and `extractDatasetFromFeature` (extension.ts 7-23) -/

/-- extension.ts `decodeHtmlEntities`: five sequential global replacements, in
source order `&quot; &apos; &lt; &gt; &amp;`. -/
def decodeHtmlEntities (input : String) : String :=
  String.mk
    (replaceAll "&amp;".data "&".data
      (replaceAll "&gt;".data ">".data
        (replaceAll "&lt;".data "<".data
          (replaceAll "&apos;".data "'".data
            (replaceAll "&quot;".data "\"".data input.data)))))

/-- extension.ts `extractDatasetFromFeature`: the substring after the first `|`,
trimmed then entity-decoded; `undefined` when there is no `|` or the result is
empty (JS truthiness check `data ? data : undefined`). -/
def extractDatasetFromFeature (feature : String) : Option String :=
  match afterFirstChar '|' feature.data with
  | none => none
  | some rest =>
    let data := decodeHtmlEntities (strTrim (String.mk rest))
    if data.data.isEmpty then none else some data

/-! ## Report formats (extension.ts 114-131, 185-195, 500-517) -/

inductive ReportType : Type where
  | junit
  | phpunit
  | html
deriving DecidableEq

/-- One entry of the `reportFormats` setting: `String(v).trim().split(/\s+/)[0]`
lower-cased, kept only when it is a recognised format name. -/
def reportTypeOfRaw (v : String) : Option ReportType :=
  let first := String.mk (((trimChars v.data).takeWhile (fun c => !c.isWhitespace)).map Char.toLower)
  if strEq first "junit" then some ReportType.junit
  else if strEq first "phpunit" then some ReportType.phpunit
  else if strEq first "html" then some ReportType.html
  else none

/-- extension.ts `normalizeReportTypes`: recognised entries, deduplicated in order
of first appearance (the `Set` insertion order). -/
def normalizeReportTypes (raw : List String) : List ReportType :=
  raw.foldl
    (fun acc v =>
      match reportTypeOfRaw v with
      | some t => if acc.contains t then acc else acc ++ [t]
      | none => acc)
    []

/-- extension.ts `getDefaultReportFileName` (the source restricts the argument to
junit/phpunit; the junit name is the fallback). -/
def getDefaultReportFileName (format : ReportType) : String :=
  if format = ReportType.phpunit then "phpunit-report.xml" else "report.xml"

/-- extension.ts `chooseXmlFormatToParse`: phpunit wins over junit; `html` alone
selects nothing. -/
def chooseXmlFormatToParse (reportTypes : List ReportType) : Option ReportType :=
  if reportTypes.contains ReportType.phpunit then some ReportType.phpunit
  else if reportTypes.contains ReportType.junit then some ReportType.junit
  else none

/-- extension.ts 500-502: the formats passed to the runner; defaults to junit when
the configured list normalises to nothing. -/
def reportTypesToGenerate (raw : List String) : List ReportType :=
  let n := normalizeReportTypes raw
  if n.isEmpty then [ReportType.junit] else n

/-! ## Command resolution (extension.ts 881-901) -/

/-- extension.ts `resolveWorkspacePath`. -/
def resolveWorkspacePath (workspaceRoot p : String) : String :=
  let trimmed := strTrim p
  if trimmed.data.isEmpty then workspaceRoot
  else if isAbsolutePath trimmed then trimmed
  else pathJoin workspaceRoot trimmed

/-- extension.ts `findCodeceptCommand`.  `pathExistsOracle` stands for
`fs.existsSync`; note that the configured-override branch never consults it. -/
def findCodeceptCommand (pathExistsOracle : String → Bool)
    (workspaceRoot : String) (configuredPath : Option String) : String :=
  let configured := strTrim (configuredPath.getD "")
  if !configured.data.isEmpty then
    resolveWorkspacePath workspaceRoot configured
  else
    let vendored := pathJoin (pathJoin (pathJoin workspaceRoot "vendor") "bin") "codecept"
    if pathExistsOracle vendored then vendored else "codecept"

/-! ## Report document model and `collectTestcasesFromNode` (extension.ts 32-49, 647-663)

The fast-xml-parser output is modelled structurally: a `testcase` attribute that
is absent / a single object / an array becomes a (possibly empty) list, as does
`testsuite`.  Only the attributes the reconciler reads are kept; each is an
`Option String` whose JS truthiness (`undefined` and `""` falsy) is applied via
`jsOr` / `jsTruthy` exactly where the source applies it. -/

structure JTestcase : Type where
  name : Option String
  file : Option String
  feature : Option String
  failure : Option String
  errorText : Option String
  skippedTag : Option String
deriving DecidableEq

inductive JNode : Type where
  | mk (testcase : List JTestcase) (testsuite : List JNode)

mutual
/-- extension.ts `collectTestcasesFromNode` on one node: push this node's
testcases, then recurse into the nested `testsuite` children in order. -/
def collectFromJNode : JNode → List JTestcase
  | .mk tcs suites => tcs ++ collectFromJList suites

def collectFromJList : List JNode → List JTestcase
  | [] => []
  | s :: rest => collectFromJNode s ++ collectFromJList rest
end

/-- extension.ts `collectTestcasesFromNode` including its guard: a missing
(`undefined`) node contributes nothing. -/
def collectTestcasesFromNode : Option JNode → List JTestcase
  | none => []
  | some n => collectFromJNode n

/-- The whole parsed document: its optional `testsuites` member plus the fields
read when the document itself is treated as a collection root (extension.ts
654-657 first collects from `parsed.testsuites`, then retries with `parsed`).
A nested `testsuites` member below the root would be ignored by the source's
collector, so it is not modelled. -/
structure JDoc : Type where
  testsuites : Option JNode
  testcase : List JTestcase
  testsuite : List JNode

/-- The document viewed as a collection root (the `parsed` argument of the
second `collectTestcasesFromNode` call). -/
def docAsNode (d : JDoc) : JNode := JNode.mk d.testcase d.testsuite

/-- extension.ts 653-657: collect from the `testsuites` root, and when that
yields nothing retry with the whole document as root. -/
def getReportTestcases (d : JDoc) : List JTestcase :=
  let fromSuites := collectTestcasesFromNode d.testsuites
  if fromSuites.isEmpty then collectFromJNode (docAsNode d) else fromSuites

/-! ## The discovered test tree

Discovery (extension.ts 242-301) always builds project → suite → file → method,
and reconciliation adds dataset children under methods only, so the tree is
embedded with one record type per level.  `uri` is the `fsPath` of the item's
`vscode.Uri`. -/

structure DatasetItem : Type where
  id : String
  label : String
  uri : Option String
deriving DecidableEq

structure MethodItem : Type where
  id : String
  label : String
  uri : Option String
  datasets : List DatasetItem
deriving DecidableEq

structure FileItem : Type where
  id : String
  label : String
  uri : Option String
  methods : List MethodItem
deriving DecidableEq

structure SuiteItem : Type where
  id : String
  label : String
  uri : Option String
  files : List FileItem
deriving DecidableEq

structure ProjectItem : Type where
  id : String
  label : String
  uri : Option String
  suites : List SuiteItem
deriving DecidableEq

/-- A run-request root, designated by its position in the forest (the
`vscode.TestItem` handed to `runCodeceptionTest`). -/
inductive RunRoot : Type where
  | projectR (p : Nat)
  | suiteR (p s : Nat)
  | fileR (p s f : Nat)
  | methodR (p s f m : Nat)
  | datasetR (p s f m d : Nat)
deriving DecidableEq

/-- extension.ts `getSelfAndAncestors` applied to the run root: the ids of the
root and its ancestors, leaf first.  `none` when the position does not exist. -/
def chainIdsOf (forest : List ProjectItem) : RunRoot → Option (List String)
  | .projectR p => (forest.get? p).map (fun pr => [pr.id])
  | .suiteR p s =>
    (forest.get? p).bind fun pr =>
      (pr.suites.get? s).map fun su => [su.id, pr.id]
  | .fileR p s f =>
    (forest.get? p).bind fun pr =>
      (pr.suites.get? s).bind fun su =>
        (su.files.get? f).map fun fi => [fi.id, su.id, pr.id]
  | .methodR p s f m =>
    (forest.get? p).bind fun pr =>
      (pr.suites.get? s).bind fun su =>
        (su.files.get? f).bind fun fi =>
          (fi.methods.get? m).map fun me => [me.id, fi.id, su.id, pr.id]
  | .datasetR p s f m d =>
    (forest.get? p).bind fun pr =>
      (pr.suites.get? s).bind fun su =>
        (su.files.get? f).bind fun fi =>
          (fi.methods.get? m).bind fun me =>
            (me.datasets.get? d).map fun ds => [ds.id, me.id, fi.id, su.id, pr.id]

/-- extension.ts `getSelfAndDescendants` (the explicit-stack traversal) on a
method node: the stack pops children last-pushed-first, giving the node followed
by its children in reverse insertion order, each with its own subtree. -/
def methodSubtreeIds (m : MethodItem) : List String :=
  m.id :: (m.datasets.reverse.map DatasetItem.id)

def fileSubtreeIds (f : FileItem) : List String :=
  f.id :: (f.methods.reverse.map methodSubtreeIds).flatten

def suiteSubtreeIds (s : SuiteItem) : List String :=
  s.id :: (s.files.reverse.map fileSubtreeIds).flatten

def projectSubtreeIds (p : ProjectItem) : List String :=
  p.id :: (p.suites.reverse.map suiteSubtreeIds).flatten

/-- extension.ts `getSelfAndDescendants` applied to the run root. -/
def subtreeIdsOf (forest : List ProjectItem) : RunRoot → Option (List String)
  | .projectR p => (forest.get? p).map projectSubtreeIds
  | .suiteR p s =>
    (forest.get? p).bind fun pr => (pr.suites.get? s).map suiteSubtreeIds
  | .fileR p s f =>
    (forest.get? p).bind fun pr =>
      (pr.suites.get? s).bind fun su => (su.files.get? f).map fileSubtreeIds
  | .methodR p s f m =>
    (forest.get? p).bind fun pr =>
      (pr.suites.get? s).bind fun su =>
        (su.files.get? f).bind fun fi => (fi.methods.get? m).map methodSubtreeIds
  | .datasetR p s f m d =>
    (forest.get? p).bind fun pr =>
      (pr.suites.get? s).bind fun su =>
        (su.files.get? f).bind fun fi =>
          (fi.methods.get? m).bind fun me =>
            (me.datasets.get? d).map fun ds => [ds.id]

/-- The `startedIds` deduplication of extension.ts 469-483: keep the first
occurrence of every id. -/
def dedupFirst (seen : List String) : List String → List String
  | [] => []
  | x :: xs => if seen.contains x then dedupFirst seen xs
               else x :: dedupFirst (x :: seen) xs

/-! ## Marks: the `TestRun` sink

`run.started/passed/failed/skipped` calls are recorded in order; the final state
of a node is the last mark carrying its id (the VS Code API keeps the most
recent state reported for an item). -/

inductive Mark : Type where
  | started (id : String)
  | passed (id : String)
  | failed (id : String) (msg : String)
  | skipped (id : String)
deriving DecidableEq

def Mark.idOf : Mark → String
  | .started i => i
  | .passed i => i
  | .failed i _ => i
  | .skipped i => i

def Mark.isStarted : Mark → Bool
  | .started _ => true
  | _ => false

/-- All marks carrying a given id, in emission order. -/
def marksFor (id : String) (ms : List Mark) : List Mark :=
  ms.filter (fun m => strEq m.idOf id)

/-- The final state of a node: the last mark carrying its id. -/
def finalMark (ms : List Mark) (id : String) : Option Mark :=
  (marksFor id ms).getLast?

/-- A record's resolved outcome (extension.ts 812-841): `failure`/`error` element
present (JS-truthy) → failed with that text, else `skipped` present → skipped,
else passed. -/
inductive TestOutcome : Type where
  | failed (msg : String)
  | skipped
  | passed
deriving DecidableEq

def tcOutcome (tc : JTestcase) : TestOutcome :=
  if jsTruthy tc.failure || jsTruthy tc.errorText then
    TestOutcome.failed (if jsTruthy tc.failure then tc.failure.getD "" else tc.errorText.getD "")
  else if jsTruthy tc.skippedTag then TestOutcome.skipped
  else TestOutcome.passed

def markOfOutcome (o : TestOutcome) (id : String) : Mark :=
  match o with
  | .failed msg => Mark.failed id msg
  | .skipped => Mark.skipped id
  | .passed => Mark.passed id

/-! ## Dataset lookup-or-create (extension.ts 697-728) -/

/-- The leftmost position at which the id matches `/::data::(\d+)$/`: a
`::data::` occurrence followed by one or more digits running to the end. -/
def datasetIndexSuffix : List Char → Option Nat
  | [] => none
  | c :: cs =>
    if "::data::".data.isPrefixOf (c :: cs) then
      let ds := (c :: cs).drop "::data::".data.length
      if !ds.isEmpty && ds.all Char.isDigit then some (digitsToNatAux ds 0)
      else datasetIndexSuffix cs
    else datasetIndexSuffix cs

def datasetIndexOf (id : String) : Option Nat := datasetIndexSuffix id.data

/-- The reuse scan of extension.ts 701-708: the first child whose id contains
`::data::` and whose label ends with a space followed by the decoded text. -/
def findReusableDataset (text : String) : List DatasetItem → Option DatasetItem
  | [] => none
  | d :: rest =>
    if strContainsSub d.id "::data::" && strEndsWith d.label (" " ++ text) then some d
    else findReusableDataset text rest

/-- extension.ts 710-717: the maximum existing dataset index, `-1` when none. -/
def maxDatasetIndex (datasets : List DatasetItem) : Int :=
  datasets.foldl
    (fun acc d =>
      match datasetIndexOf d.id with
      | some n => max acc (n : Int)
      | none => acc)
    (-1)

/-- extension.ts `getOrCreateDatasetItem`, acting on the method node it mutates.
Returns the updated method, the dataset child's id, and whether a child was
created. -/
def getOrCreateDatasetItem (m : MethodItem) (datasetText : String) :
    MethodItem × String × Bool :=
  match findReusableDataset datasetText m.datasets with
  | some d => (m, d.id, false)
  | none =>
    let nextIndex : Nat := (maxDatasetIndex m.datasets + 1).toNat
    let datasetId := m.id ++ "::data::" ++ toString nextIndex
    let datasetLabel := "[" ++ toString nextIndex ++ "] " ++ datasetText
    let newItem : DatasetItem := ⟨datasetId, datasetLabel, m.uri⟩
    ({ m with datasets := m.datasets ++ [newItem] }, datasetId, true)

/-! ## Record-to-node matching (extension.ts 738-810) -/

/-- extension.ts 750-763: a file node matches when it has a uri and the record's
file attribute is truthy and equals the path exactly or by basename. -/
def fileMatches (fileAttr : String) (f : FileItem) : Bool :=
  match f.uri with
  | none => false
  | some u =>
    !fileAttr.data.isEmpty &&
      (strEq u fileAttr || strEq (basenameStr u) (basenameStr fileAttr))

def findFileInSuite (fileAttr : String) : List FileItem → Option (Nat × FileItem)
  | [] => none
  | f :: rest =>
    if fileMatches fileAttr f then some (0, f)
    else (findFileInSuite fileAttr rest).map (fun r => (r.1 + 1, r.2))

def findFileInProject (fileAttr : String) : List SuiteItem → Option (Nat × SuiteItem × Nat × FileItem)
  | [] => none
  | s :: rest =>
    match findFileInSuite fileAttr s.files with
    | some (fi, f) => some (0, s, fi, f)
    | none => (findFileInProject fileAttr rest).map (fun r => (r.1 + 1, r.2))

/-- The project → suite → file walk with its break-on-first-match structure:
the first matching file node in iteration order. -/
def findFileLoc (fileAttr : String) :
    List ProjectItem → Option (Nat × ProjectItem × Nat × SuiteItem × Nat × FileItem)
  | [] => none
  | p :: rest =>
    match findFileInProject fileAttr p.suites with
    | some (si, s, fi, f) => some (0, p, si, s, fi, f)
    | none => (findFileLoc fileAttr rest).map (fun r => (r.1 + 1, r.2))

/-- extension.ts 768-771: the record name with a trailing
" with data set ..." suffix stripped (substring before its first occurrence). -/
def stripDataSetSuffix (name : String) : String :=
  match takeBeforeSub name.data " with data set".data with
  | some before => String.mk before
  | none => name

/-- extension.ts 772-778: the first method child whose label equals the record
name verbatim or equals the stripped base name. -/
def findMethodInFile (testName baseName : String) : List MethodItem → Option (Nat × MethodItem)
  | [] => none
  | m :: rest =>
    if strEq m.label testName || strEq m.label baseName then some (0, m)
    else (findMethodInFile testName baseName rest).map (fun r => (r.1 + 1, r.2))

def listModify (g : α → α) : Nat → List α → List α
  | _, [] => []
  | 0, x :: xs => g x :: xs
  | j + 1, x :: xs => x :: listModify g j xs

/-- Replace the method node at a forest position. -/
def updateMethodAt (forest : List ProjectItem) (p s f m : Nat)
    (g : MethodItem → MethodItem) : List ProjectItem :=
  listModify
    (fun pr =>
      { pr with
        suites := listModify
          (fun su =>
            { su with
              files := listModify
                (fun fi => { fi with methods := listModify g m fi.methods }) f su.files })
          s pr.suites })
    p forest

/-- Outcome of matching one record against the forest: the possibly mutated
forest, the resolved target node (its id plus the ids of its ancestors, leaf
first, as walked by the parent back-references), and the matched method, when
any, with its own ancestor ids. -/
structure MatchOut : Type where
  forest : List ProjectItem
  targetId : String
  targetRest : List String
  mappedMethod : Option (String × List String)

/-- extension.ts 738-801: resolve one record to a node.  `rootId :: rootRest` is
the run root's self-and-ancestor chain, the fallback target when nothing
matches. -/
def matchRecord (forest : List ProjectItem) (rootId : String) (rootRest : List String)
    (tc : JTestcase) : MatchOut :=
  let testName := jsOr tc.name "unknown"
  let fileAttr := jsOr tc.file ""
  let featureAttr := jsOr tc.feature ""
  match findFileLoc fileAttr forest with
  | none => ⟨forest, rootId, rootRest, none⟩
  | some (p, proj, s, suite, f, file) =>
    let baseName := stripDataSetSuffix testName
    match findMethodInFile testName baseName file.methods with
    | none => ⟨forest, file.id, [suite.id, proj.id], none⟩
    | some (mi, m) =>
      let mRest := [file.id, suite.id, proj.id]
      let dataset := if !featureAttr.data.isEmpty then extractDatasetFromFeature featureAttr else none
      match dataset with
      | none => ⟨forest, m.id, mRest, some (m.id, mRest)⟩
      | some text =>
        let r := getOrCreateDatasetItem m text
        ⟨updateMethodAt forest p s f mi (fun _ => r.1), r.2.1, m.id :: mRest, some (m.id, mRest)⟩

/-! ## The per-run aggregation fold (extension.ts 666-879) -/

structure Flags : Type where
  hadFailure : Bool
  hadPass : Bool
  hadSkip : Bool
deriving DecidableEq

def emptyFlags : Flags := ⟨false, false, false⟩

def applyOutcome (o : TestOutcome) (fl : Flags) : Flags :=
  match o with
  | .failed _ => { fl with hadFailure := true }
  | .passed => { fl with hadPass := true }
  | .skipped => { fl with hadSkip := true }

/-- Insertion-ordered map, modelling a JS `Map`: updating an existing key keeps
its position, a new key is appended. -/
def alistUpdate (k : String) (dflt : α) (g : α → α) : List (String × α) → List (String × α)
  | [] => [(k, g dflt)]
  | (k', v) :: rest =>
    if strEq k' k then (k', g v) :: rest else (k', v) :: alistUpdate k dflt g rest

def alistLookup (k : String) : List (String × α) → Option α
  | [] => none
  | (k', v) :: rest => if strEq k' k then some v else alistLookup k rest

/-- extension.ts `getSelfAndAncestorsUntil`: the chain from the leaf upward,
cut (inclusively) at the run root's id. -/
def takeUntilIncl (stop : String) : List String → List String
  | [] => []
  | x :: xs => if strEq x stop then [x] else x :: takeUntilIncl stop xs

/-- extension.ts `recordOutcomeToRoot`: fold the outcome into the per-node flags
of every node from the leaf up to (and including) the run root. -/
def recordOutcomeToRoot (m : List (String × Flags)) (rootId : String)
    (chain : List String) (o : TestOutcome) : List (String × Flags) :=
  (takeUntilIncl rootId chain).foldl
    (fun acc tid => alistUpdate tid emptyFlags (applyOutcome o) acc) m

/-- The mutable state of the record-processing loop. -/
structure ProcState : Type where
  forest : List ProjectItem
  marks : List Mark
  hadFailure : Bool
  subtreeOutcome : List (String × Flags)
  methodAgg : List (String × (List String × Flags))

/-- extension.ts 738-841, one loop iteration: match the record, register the
method aggregate, emit the record's mark on the target, fold the outcome to the
root, and update the matched method's dataset flags. -/
def processRecord (rootId : String) (rootRest : List String)
    (st : ProcState) (tc : JTestcase) : ProcState :=
  let mo := matchRecord st.forest rootId rootRest tc
  let agg0 :=
    match mo.mappedMethod with
    | some (mid, mrest) => alistUpdate mid (mrest, emptyFlags) (fun e => e) st.methodAgg
    | none => st.methodAgg
  let o := tcOutcome tc
  { forest := mo.forest
    marks := st.marks ++ [markOfOutcome o mo.targetId]
    hadFailure := st.hadFailure || (match o with | .failed _ => true | _ => false)
    subtreeOutcome := recordOutcomeToRoot st.subtreeOutcome rootId (mo.targetId :: mo.targetRest) o
    methodAgg :=
      match mo.mappedMethod with
      | some (mid, mrest) =>
        alistUpdate mid (mrest, emptyFlags) (fun e => (e.1, applyOutcome o e.2)) agg0
      | none => agg0 }

/-- extension.ts 843-854, one method-aggregate iteration: re-resolve the method
with the failed-dominates fold and propagate to its ancestors. -/
def aggStep (rootId : String) (st : ProcState)
    (e : String × (List String × Flags)) : ProcState :=
  let mchain := e.1 :: e.2.1
  let fl := e.2.2
  if fl.hadFailure then
    { st with
      marks := st.marks ++ [Mark.failed e.1 "One or more datasets failed"]
      subtreeOutcome :=
        recordOutcomeToRoot st.subtreeOutcome rootId mchain (.failed "One or more datasets failed") }
  else if fl.hadPass then
    { st with
      marks := st.marks ++ [Mark.passed e.1]
      subtreeOutcome := recordOutcomeToRoot st.subtreeOutcome rootId mchain .passed }
  else if fl.hadSkip then
    { st with
      marks := st.marks ++ [Mark.skipped e.1]
      subtreeOutcome := recordOutcomeToRoot st.subtreeOutcome rootId mchain .skipped }
  else st

/-- extension.ts 856-870, one started-subtree node: no recorded outcome →
skipped; else failed dominates, then passed, then skipped. -/
def finalizeSubtreeMark (outcomes : List (String × Flags)) (tid : String) : Mark :=
  match alistLookup tid outcomes with
  | none => Mark.skipped tid
  | some fl =>
    if fl.hadFailure then Mark.failed tid "One or more child tests failed"
    else if fl.hadPass then Mark.passed tid
    else Mark.skipped tid

/-- extension.ts `finalizeChain` (484-494): emit one outcome for every node of
the run root's self-and-ancestor chain. -/
def finalizeChainMarks (chain : List String) (o : TestOutcome) : List Mark :=
  chain.map (markOfOutcome o)

/-- extension.ts 596-602 etc.: the message attached to exit-code failures. -/
def exitMessage (exitCode : Int) : String :=
  "Codeception exited with code " ++ toString exitCode

/-- extension.ts `execProcess`, reduced to the claimed control flow: a
cancellation signal that has already fired resolves with the sentinel 130
without spawning; otherwise the process runs and yields its exit code.  The
first component records whether the external command was invoked. -/
def execProcess (cancelled : Bool) (processExit : Int) : Bool × Int :=
  if cancelled then (false, 130) else (true, processExit)

/-- One run request, the inputs of `runCodeceptionTest`: the discovered forest,
the selected run root, the raw `reportFormats` setting, whether the cancellation
signal fired before spawn, the external process's exit code, and the state of
the XML report file after the process ends (found / stale / parsed content). -/
structure RunInput : Type where
  forest : List ProjectItem
  root : RunRoot
  reportFormats : List String
  cancelled : Bool
  exitCode : Int
  reportExists : Bool
  reportStale : Bool
  reportDoc : JDoc

structure RunOutput : Type where
  marks : List Mark
  forest : List ProjectItem
  spawned : Bool

/-- The record-processing phase, when reached: the state after folding all
records (extension.ts 666-841) and re-resolving method aggregates (843-854). -/
def recordPhase (inp : RunInput) (rootId : String) (rootRest : List String)
    (testcases : List JTestcase) : ProcState :=
  let st0 : ProcState := ⟨inp.forest, [], false, [], []⟩
  let st1 := testcases.foldl (processRecord rootId rootRest) st0
  st1.methodAgg.foldl (aggStep rootId) st1

/-- extension.ts `runCodeceptionTest` (439-880), from the started-marking on:
mark the self-and-ancestor chain then the self-and-descendant subtree as started
(deduplicated by id), run the process, and resolve according to cancellation,
the chosen XML format, report presence/staleness, and the parsed records. -/
def runCodeceptionTest (inp : RunInput) : RunOutput :=
  match chainIdsOf inp.forest inp.root, subtreeIdsOf inp.forest inp.root with
  | some chainIds, some subtreeIds =>
    let rootId := chainIds.headD ""
    let rootRest := chainIds.tail
    let startMarks := (dedupFirst [] (chainIds ++ subtreeIds)).map Mark.started
    let pr := execProcess inp.cancelled inp.exitCode
    let exitCode := pr.2
    if inp.cancelled || exitCode == 130 then
      ⟨startMarks ++ finalizeChainMarks chainIds .skipped, inp.forest, pr.1⟩
    else
      match chooseXmlFormatToParse (reportTypesToGenerate inp.reportFormats) with
      | none =>
        if exitCode != 0 then
          ⟨startMarks ++ finalizeChainMarks chainIds (.failed (exitMessage exitCode)), inp.forest, pr.1⟩
        else
          ⟨startMarks ++ finalizeChainMarks chainIds .passed, inp.forest, pr.1⟩
      | some _ =>
        if !inp.reportExists then
          ⟨startMarks ++
            (if exitCode != 0 then finalizeChainMarks chainIds (.failed (exitMessage exitCode)) else []),
            inp.forest, pr.1⟩
        else if inp.reportStale then
          ⟨startMarks ++
            (if exitCode != 0 then finalizeChainMarks chainIds (.failed (exitMessage exitCode)) else []),
            inp.forest, pr.1⟩
        else
          let testcases := getReportTestcases inp.reportDoc
          if testcases.isEmpty then
            ⟨startMarks ++
              (if exitCode != 0 then finalizeChainMarks chainIds (.failed (exitMessage exitCode)) else []),
              inp.forest, pr.1⟩
          else
            let st2 := recordPhase inp rootId rootRest testcases
            let subMarks := subtreeIds.map (finalizeSubtreeMark st2.subtreeOutcome)
            let endMarks :=
              if exitCode != 0 && !st2.hadFailure then
                finalizeChainMarks chainIds (.failed (exitMessage exitCode))
              else
                finalizeChainMarks chainIds
                  (if st2.hadFailure then .failed "One or more child tests failed" else .passed)
            ⟨startMarks ++ st2.marks ++ subMarks ++ endMarks, st2.forest, pr.1⟩
  | _, _ => ⟨[], inp.forest, false⟩

/-! ## Concrete fixtures used by counterexamples and witnesses

A one-workspace forest with one suite, one file `FooTest.php` and one method
`testFoo`, as discovery would build it; `c4ForestWith` parameterises the method's
dataset children so intermediate states of a run can be written down. -/

def c4ForestWith (ds : List DatasetItem) : List ProjectItem :=
  [⟨"p", "WS", some "/ws",
    [⟨"s", "unit", some "/ws/tests/unit",
      [⟨"f", "FooTest.php", some "/ws/tests/unit/FooTest.php",
        [⟨"m", "testFoo", some "/ws/tests/unit/FooTest.php", ds⟩]⟩]⟩]⟩]

def c4Forest : List ProjectItem := c4ForestWith []

/-- A failing record for `testFoo` with the given raw feature attribute. -/
def c4Record1 (f1 : String) : JTestcase :=
  ⟨some "testFoo", some "/ws/tests/unit/FooTest.php", some f1, some "assertion failed", none, none⟩

/-- A clean record for `testFoo` with the given raw feature attribute. -/
def c4Record2 (f2 : String) : JTestcase :=
  ⟨some "testFoo", some "/ws/tests/unit/FooTest.php", some f2, none, none, none⟩

/-- A run of the whole project whose report holds one failing and one clean
record for `testFoo`, with data-set features `f1` and `f2`: spec Scenario D. -/
def c4Input (f1 f2 : String) : RunInput :=
  ⟨c4Forest, .projectR 0, ["junit"], false, 0, true, false,
    ⟨some (JNode.mk [c4Record1 f1, c4Record2 f2] []), [], []⟩⟩

/-- The dataset labels of `testFoo` after a run, used to state Scenario D. -/
def c4MethodDatasetLabels (out : RunOutput) : List String :=
  (out.forest.flatMap (fun pr => pr.suites.flatMap (fun su => su.files.flatMap (fun fi =>
    fi.methods.flatMap (fun me => me.datasets.map DatasetItem.label)))))

/-- An empty report document (used where the report content is irrelevant). -/
def emptyDoc : JDoc := ⟨none, [], []⟩

/-- A run of the project root whose report file was never produced and whose
process exited 0 (e.g. everything filtered out). -/
def c1AbsentInput : RunInput :=
  ⟨c4Forest, .projectR 0, ["junit"], false, 0, false, false, emptyDoc⟩

/-- A run of the project root cancelled before the process was spawned. -/
def c6CancelledInput : RunInput :=
  ⟨c4Forest, .projectR 0, ["junit"], true, 0, true, false, emptyDoc⟩

/-- A method that already owns the dataset child `[0] 1 2` (as created for
decoded text `1 2`). -/
def c5Method : MethodItem :=
  ⟨"M", "testFoo", none, [⟨"M::data::0", "[0] 1 2", none⟩]⟩

/-- The record-processing fold's per-node outcome, looked up after the fold
(used to state which nodes "received no outcome from the fold"). -/
def runFoldOutcome (inp : RunInput) (id : String) : Option Flags :=
  match chainIdsOf inp.forest inp.root with
  | some chainIds =>
    alistLookup id
      (recordPhase inp (chainIds.headD "") chainIds.tail
        (getReportTestcases inp.reportDoc)).subtreeOutcome
  | none => none

/-- The two invariants carried through the record-processing fold: every emitted
mark is terminal, and every emitted mark's id is a key of the running outcome
map. -/
def ProcInv (st : ProcState) : Prop :=
  (∀ m ∈ st.marks, m.isStarted = false) ∧
  (∀ m ∈ st.marks, alistLookup m.idOf st.subtreeOutcome ≠ none)

/-! ## Helper lemmas: strings, lists, ordered maps -/

theorem strEq_iff {a b : String} : strEq a b = true ↔ a = b := by
  constructor
  · intro h
    exact congrArg String.mk (by simpa [strEq] using h)
  · intro h; subst h; simp [strEq]

theorem strEq_self (a : String) : strEq a a = true := strEq_iff.mpr rfl

theorem strEq_false_of_ne {a b : String} (h : a ≠ b) : strEq a b = false := by
  cases he : strEq a b
  · rfl
  · exact absurd (strEq_iff.mp he) h

theorem str_data_isEmpty_iff {s : String} : s.data.isEmpty = true ↔ s = "" := by
  constructor
  · intro h
    have hd : s.data = "".data := by simpa [List.isEmpty_iff] using h
    exact congrArg String.mk hd
  · intro h; subst h; rfl

theorem string_data_append (a b : String) : (a ++ b).data = a.data ++ b.data := rfl

theorem afterFirstChar_eq_none_iff {c : Char} {l : List Char} :
    afterFirstChar c l = none ↔ c ∉ l := by
  induction l with
  | nil => simp [afterFirstChar]
  | cons x xs ih =>
    by_cases hx : x = c
    · subst hx; simp [afterFirstChar]
    · simp [afterFirstChar, hx, ih, Ne.symm hx]

theorem listContainsSub_of_middle (x y pat : List Char) :
    listContainsSub (x ++ (pat ++ y)) pat = true := by
  induction x with
  | nil =>
    rw [listContainsSub.eq_def]
    simp [List.isPrefixOf_iff_prefix]
  | cons a as ih =>
    rw [listContainsSub.eq_def]
    by_cases h : pat.isPrefixOf (a :: (as ++ (pat ++ y)))
    · simp [h]
    · simpa [h] using ih

theorem isSuffixOf_append (a b : List Char) : b.isSuffixOf (a ++ b) = true := by
  simp [List.isSuffixOf_iff_suffix]

theorem dedupFirst_mem {x : String} : ∀ {seen l : List String},
    x ∈ dedupFirst seen l ↔ x ∈ l ∧ x ∉ seen := by
  intro seen l
  induction l generalizing seen with
  | nil => simp [dedupFirst]
  | cons a as ih =>
    rw [dedupFirst]
    by_cases ha : a ∈ seen
    · rw [if_pos (by simpa using ha)]
      rw [ih, List.mem_cons]
      constructor
      · rintro ⟨h1, h2⟩
        exact ⟨Or.inr h1, h2⟩
      · rintro ⟨h1 | h1, h2⟩
        · exact absurd (h1 ▸ ha) h2
        · exact ⟨h1, h2⟩
    · rw [if_neg (by simpa using ha)]
      simp only [List.mem_cons, ih]
      constructor
      · rintro (h | ⟨h1, h2⟩)
        · subst h
          exact ⟨Or.inl rfl, ha⟩
        · have h2' : ¬(x = a ∨ x ∈ seen) := by simpa [List.mem_cons] using h2
          push_neg at h2'
          exact ⟨Or.inr h1, h2'.2⟩
      · rintro ⟨h1 | h1, h2⟩
        · exact Or.inl h1
        · by_cases hxa : x = a
          · exact Or.inl hxa
          · refine Or.inr ⟨h1, ?_⟩
            simp [List.mem_cons, hxa, h2]

theorem dedupFirst_nodup : ∀ (seen l : List String), (dedupFirst seen l).Nodup := by
  intro seen l
  induction l generalizing seen with
  | nil => simp [dedupFirst]
  | cons a as ih =>
    rw [dedupFirst]
    by_cases ha : a ∈ seen
    · rw [if_pos (by simpa using ha)]
      exact ih seen
    · rw [if_neg (by simpa using ha)]
      refine List.nodup_cons.mpr ⟨?_, ih (a :: seen)⟩
      intro hmem
      exact (dedupFirst_mem.mp hmem).2 (List.mem_cons_self a seen)

theorem foldl_pres {α β : Type} {P : β → Prop} {f : β → α → β}
    (hf : ∀ b a, P b → P (f b a)) : ∀ (l : List α) (b : β), P b → P (l.foldl f b) := by
  intro l
  induction l with
  | nil => intro b hb; simpa using hb
  | cons a as ih =>
    intro b hb
    simpa [List.foldl_cons] using ih (f b a) (hf b a hb)

theorem alistLookup_alistUpdate_of {α : Type} {m : List (String × α)} {k k' : String}
    {d : α} {g : α → α} (h : alistLookup k' m ≠ none) :
    alistLookup k' (alistUpdate k d g m) ≠ none := by
  induction m with
  | nil => simp [alistLookup] at h
  | cons e rest ih =>
    obtain ⟨k0, v0⟩ := e
    by_cases he : strEq k0 k
    · simp only [alistUpdate, he, if_pos]
      by_cases he' : strEq k0 k'
      · simp [alistLookup, he']
      · simpa [alistLookup, he'] using (by simpa [alistLookup, he'] using h)
    · simp only [alistUpdate, he, Bool.false_eq_true, if_neg, not_false_iff]
      by_cases he' : strEq k0 k'
      · simp [alistLookup, he']
      · have h' : alistLookup k' rest ≠ none := by simpa [alistLookup, he'] using h
        simpa [alistLookup, he'] using ih h'

theorem alistLookup_alistUpdate_self {α : Type} {m : List (String × α)} {k : String}
    {d : α} {g : α → α} : alistLookup k (alistUpdate k d g m) ≠ none := by
  induction m with
  | nil => simp [alistUpdate, alistLookup, strEq_self]
  | cons e rest ih =>
    obtain ⟨k0, v0⟩ := e
    by_cases he : strEq k0 k
    · simp [alistUpdate, he, alistLookup]
    · simp only [alistUpdate, he, Bool.false_eq_true, if_neg, not_false_iff]
      simpa [alistLookup, he] using ih

theorem recordOutcomeToRoot_pres {m : List (String × Flags)} {k rootId : String}
    {chain : List String} {o : TestOutcome} (h : alistLookup k m ≠ none) :
    alistLookup k (recordOutcomeToRoot m rootId chain o) ≠ none := by
  unfold recordOutcomeToRoot
  exact foldl_pres (P := fun mm => alistLookup k mm ≠ none)
    (fun b a hb => alistLookup_alistUpdate_of hb) _ m h

theorem recordOutcomeToRoot_head {m : List (String × Flags)} {x rootId : String}
    {xs : List String} {o : TestOutcome} :
    alistLookup x (recordOutcomeToRoot m rootId (x :: xs) o) ≠ none := by
  unfold recordOutcomeToRoot takeUntilIncl
  by_cases hx : strEq x rootId
  · simp only [hx, if_pos]
    simpa [List.foldl_cons] using (alistLookup_alistUpdate_self (m := m))
  · simp only [hx, Bool.false_eq_true, if_neg, not_false_iff, List.foldl_cons]
    exact foldl_pres (P := fun mm => alistLookup x mm ≠ none)
      (fun b a hb => alistLookup_alistUpdate_of hb) _ _
      (alistLookup_alistUpdate_self (m := m))

/-! ## Helper lemmas: marks and final states -/

theorem markOfOutcome_idOf (o : TestOutcome) (id : String) :
    (markOfOutcome o id).idOf = id := by
  cases o <;> rfl

theorem markOfOutcome_not_started (o : TestOutcome) (id : String) :
    (markOfOutcome o id).isStarted = false := by
  cases o <;> rfl

theorem finalizeSubtreeMark_idOf (outcomes : List (String × Flags)) (tid : String) :
    (finalizeSubtreeMark outcomes tid).idOf = tid := by
  unfold finalizeSubtreeMark
  rcases alistLookup tid outcomes with _ | fl
  · rfl
  · by_cases h1 : fl.hadFailure <;> by_cases h2 : fl.hadPass <;> simp [h1, h2, Mark.idOf]

theorem finalizeSubtreeMark_not_started (outcomes : List (String × Flags)) (tid : String) :
    (finalizeSubtreeMark outcomes tid).isStarted = false := by
  unfold finalizeSubtreeMark
  rcases alistLookup tid outcomes with _ | fl
  · rfl
  · by_cases h1 : fl.hadFailure <;> by_cases h2 : fl.hadPass <;> simp [h1, h2, Mark.isStarted]

theorem marksFor_append (id : String) (a b : List Mark) :
    marksFor id (a ++ b) = marksFor id a ++ marksFor id b := by
  simp [marksFor, List.filter_append]

theorem mem_of_marksFor {id : String} {l : List Mark} {m : Mark}
    (h : m ∈ marksFor id l) : m ∈ l ∧ m.idOf = id := by
  unfold marksFor at h
  have h2 := List.of_mem_filter h
  exact ⟨List.mem_of_mem_filter h, strEq_iff.mp h2⟩

theorem marksFor_map_eq (id : String) (g : String → Mark) (hg : ∀ x, (g x).idOf = x) :
    ∀ (l : List String), marksFor id (l.map g) = (l.filter (fun x => strEq x id)).map g := by
  intro l
  induction l with
  | nil => rfl
  | cons a as ih =>
    unfold marksFor at *
    simp only [List.map_cons, List.filter_cons, hg a]
    by_cases h : strEq a id = true
    · simp [h, ih]
    · simp [h, ih]

theorem filter_strEq_of_nodup {l : List String} {id : String}
    (hn : l.Nodup) (hm : id ∈ l) : l.filter (fun x => strEq x id) = [id] := by
  induction l with
  | nil => cases hm
  | cons a as ih =>
    rcases List.nodup_cons.mp hn with ⟨hnotin, hnd⟩
    rcases List.mem_cons.mp hm with h | h
    · subst h
      have hnil : as.filter (fun x => strEq x id) = [] := by
        apply List.filter_eq_nil_iff.mpr
        intro x hx
        have hxne : x ≠ id := by
          intro he
          exact hnotin (he ▸ hx)
        simp [strEq_false_of_ne hxne]
      simp [List.filter_cons, strEq_self, hnil]
    · have hne : a ≠ id := by
        intro he
        exact hnotin (he ▸ h)
      simp [List.filter_cons, strEq_false_of_ne hne, ih hnd h]

theorem filter_strEq_eq_nil {l : List String} {id : String} (h : id ∉ l) :
    l.filter (fun x => strEq x id) = [] := by
  apply List.filter_eq_nil_iff.mpr
  intro x hx
  have hxne : x ≠ id := by
    intro he
    exact h (he ▸ hx)
  simp [strEq_false_of_ne hxne]

theorem filter_strEq_ne_nil {l : List String} {id : String} (h : id ∈ l) :
    l.filter (fun x => strEq x id) ≠ [] := by
  intro hnil
  have : id ∈ l.filter (fun x => strEq x id) := List.mem_filter.mpr ⟨h, strEq_self id⟩
  simp [hnil] at this

theorem last_all_eq {α : Type} {l : List α} {v : α} (hne : l ≠ [])
    (hall : ∀ x ∈ l, x = v) : l.getLast? = some v := by
  have hv := List.getLast?_eq_getLast_of_ne_nil hne
  rw [hv]
  exact congrArg some (hall _ (List.getLast_mem hne))

theorem finalMark_append_right {id : String} {a b : List Mark}
    (h : marksFor id b ≠ []) : finalMark (a ++ b) id = finalMark b id := by
  unfold finalMark
  rw [marksFor_append]
  exact List.getLast?_append_of_ne_nil _ h

theorem finalMark_terminal_of {id : String} (pre post : List Mark)
    (hpost : ∀ m ∈ post, m.isStarted = false) (hne : marksFor id post ≠ []) :
    ∃ m, finalMark (pre ++ post) id = some m ∧ m.isStarted = false := by
  rw [finalMark_append_right hne]
  rcases List.getLast?_eq_getLast_of_ne_nil hne with hv
  refine ⟨(marksFor id post).getLast hne, hv, ?_⟩
  have hmem := List.getLast_mem hne
  exact hpost _ (mem_of_marksFor hmem).1

theorem finalMark_chain_marks {id : String} (pre : List Mark) (chain : List String)
    (o : TestOutcome) (hid : id ∈ chain) :
    finalMark (pre ++ finalizeChainMarks chain o) id = some (markOfOutcome o id) := by
  have hmf : marksFor id (finalizeChainMarks chain o)
      = (chain.filter (fun x => strEq x id)).map (markOfOutcome o) :=
    marksFor_map_eq id _ (markOfOutcome_idOf o) chain
  have hne : marksFor id (finalizeChainMarks chain o) ≠ [] := by
    rw [hmf]
    simpa using filter_strEq_ne_nil hid
  rw [finalMark_append_right hne]
  unfold finalMark
  rw [hmf]
  apply last_all_eq (by simpa using filter_strEq_ne_nil hid)
  intro x hx
  rcases List.mem_map.mp hx with ⟨y, hy, hxy⟩
  have hyid : y = id := strEq_iff.mp (List.mem_filter.mp hy).2
  subst hyid
  exact hxy.symm

/-! ## Helper lemmas: the record-processing fold -/

theorem processRecord_marks (rootId : String) (rootRest : List String)
    (st : ProcState) (tc : JTestcase) :
    (processRecord rootId rootRest st tc).marks
      = st.marks ++ [markOfOutcome (tcOutcome tc) ((matchRecord st.forest rootId rootRest tc).targetId)] := rfl

theorem processRecord_subtreeOutcome (rootId : String) (rootRest : List String)
    (st : ProcState) (tc : JTestcase) :
    (processRecord rootId rootRest st tc).subtreeOutcome
      = recordOutcomeToRoot st.subtreeOutcome rootId
          ((matchRecord st.forest rootId rootRest tc).targetId
            :: (matchRecord st.forest rootId rootRest tc).targetRest)
          (tcOutcome tc) := rfl

theorem procInv_processRecord (rootId : String) (rootRest : List String)
    (st : ProcState) (tc : JTestcase) (h : ProcInv st) :
    ProcInv (processRecord rootId rootRest st tc) := by
  obtain ⟨h1, h2⟩ := h
  constructor
  · intro m hm
    rw [processRecord_marks] at hm
    rcases List.mem_append.mp hm with hm | hm
    · exact h1 m hm
    · simp only [List.mem_singleton] at hm
      subst hm
      exact markOfOutcome_not_started _ _
  · intro m hm
    rw [processRecord_marks] at hm
    rw [processRecord_subtreeOutcome]
    rcases List.mem_append.mp hm with hm | hm
    · exact recordOutcomeToRoot_pres (h2 m hm)
    · simp only [List.mem_singleton] at hm
      subst hm
      rw [markOfOutcome_idOf]
      exact recordOutcomeToRoot_head

theorem procInv_aggStep (rootId : String) (st : ProcState)
    (e : String × (List String × Flags)) (h : ProcInv st) :
    ProcInv (aggStep rootId st e) := by
  obtain ⟨h1, h2⟩ := h
  unfold aggStep
  by_cases hf : e.2.2.hadFailure
  · simp only [hf, if_pos]
    constructor
    · intro m hm
      rcases List.mem_append.mp hm with hm | hm
      · exact h1 m hm
      · simp only [List.mem_singleton] at hm
        subst hm
        rfl
    · intro m hm
      rcases List.mem_append.mp hm with hm | hm
      · exact recordOutcomeToRoot_pres (h2 m hm)
      · simp only [List.mem_singleton] at hm
        subst hm
        exact recordOutcomeToRoot_head
  · by_cases hp : e.2.2.hadPass
    · simp only [hf, hp, if_pos, Bool.false_eq_true, if_neg, not_false_iff]
      constructor
      · intro m hm
        rcases List.mem_append.mp hm with hm | hm
        · exact h1 m hm
        · simp only [List.mem_singleton] at hm
          subst hm
          rfl
      · intro m hm
        rcases List.mem_append.mp hm with hm | hm
        · exact recordOutcomeToRoot_pres (h2 m hm)
        · simp only [List.mem_singleton] at hm
          subst hm
          exact recordOutcomeToRoot_head
    · by_cases hs : e.2.2.hadSkip
      · simp only [hf, hp, hs, if_pos, Bool.false_eq_true, if_neg, not_false_iff]
        constructor
        · intro m hm
          rcases List.mem_append.mp hm with hm | hm
          · exact h1 m hm
          · simp only [List.mem_singleton] at hm
            subst hm
            rfl
        · intro m hm
          rcases List.mem_append.mp hm with hm | hm
          · exact recordOutcomeToRoot_pres (h2 m hm)
          · simp only [List.mem_singleton] at hm
            subst hm
            exact recordOutcomeToRoot_head
      · simp only [hf, hp, hs, Bool.false_eq_true, if_neg, not_false_iff]
        exact ⟨h1, h2⟩

theorem recordPhase_inv (inp : RunInput) (rootId : String) (rootRest : List String)
    (testcases : List JTestcase) :
    ProcInv (recordPhase inp rootId rootRest testcases) := by
  unfold recordPhase
  apply foldl_pres (P := ProcInv) (fun b a hb => procInv_aggStep rootId b a hb)
  apply foldl_pres (P := ProcInv) (fun b a hb => procInv_processRecord rootId rootRest b a hb)
  exact ⟨fun m hm => absurd hm (List.not_mem_nil m), fun m hm => absurd hm (List.not_mem_nil m)⟩

/-! ## Helper lemmas: the branches of `runCodeceptionTest` -/

theorem run_cancelled_eq (inp : RunInput) (chain subtree : List String)
    (hc : chainIdsOf inp.forest inp.root = some chain)
    (hs : subtreeIdsOf inp.forest inp.root = some subtree)
    (hcan : inp.cancelled = true) :
    runCodeceptionTest inp =
      ⟨(dedupFirst [] (chain ++ subtree)).map Mark.started
          ++ finalizeChainMarks chain .skipped, inp.forest, false⟩ := by
  unfold runCodeceptionTest
  rw [hc, hs]
  simp [execProcess, hcan]

theorem run_exit130_eq (inp : RunInput) (chain subtree : List String)
    (hc : chainIdsOf inp.forest inp.root = some chain)
    (hs : subtreeIdsOf inp.forest inp.root = some subtree)
    (hcan : inp.cancelled = false) (h130 : (inp.exitCode == 130) = true) :
    runCodeceptionTest inp =
      ⟨(dedupFirst [] (chain ++ subtree)).map Mark.started
          ++ finalizeChainMarks chain .skipped, inp.forest, true⟩ := by
  unfold runCodeceptionTest
  rw [hc, hs]
  simp [execProcess, hcan, h130]

theorem run_noXml_eq (inp : RunInput) (chain subtree : List String)
    (hc : chainIdsOf inp.forest inp.root = some chain)
    (hs : subtreeIdsOf inp.forest inp.root = some subtree)
    (hcan : inp.cancelled = false) (h130 : (inp.exitCode == 130) = false)
    (hxml : chooseXmlFormatToParse (reportTypesToGenerate inp.reportFormats) = none) :
    runCodeceptionTest inp =
      ⟨(dedupFirst [] (chain ++ subtree)).map Mark.started
          ++ (if inp.exitCode != 0 then
                finalizeChainMarks chain (.failed (exitMessage inp.exitCode))
              else finalizeChainMarks chain .passed),
        inp.forest, true⟩ := by
  unfold runCodeceptionTest
  rw [hc, hs]
  simp only [execProcess, hcan, Bool.false_eq_true, if_neg, not_false_iff, h130,
    Bool.or_self, Bool.or_false, hxml]
  by_cases hz : inp.exitCode != 0 <;> simp [hz]

theorem run_absent_eq (inp : RunInput) (chain subtree : List String) (fmt : ReportType)
    (hc : chainIdsOf inp.forest inp.root = some chain)
    (hs : subtreeIdsOf inp.forest inp.root = some subtree)
    (hcan : inp.cancelled = false) (h130 : (inp.exitCode == 130) = false)
    (hxml : chooseXmlFormatToParse (reportTypesToGenerate inp.reportFormats) = some fmt)
    (hex : inp.reportExists = false) :
    runCodeceptionTest inp =
      ⟨(dedupFirst [] (chain ++ subtree)).map Mark.started
          ++ (if inp.exitCode != 0 then
                finalizeChainMarks chain (.failed (exitMessage inp.exitCode))
              else []),
        inp.forest, true⟩ := by
  unfold runCodeceptionTest
  rw [hc, hs]
  simp only [execProcess, hcan, Bool.false_eq_true, if_neg, not_false_iff, h130,
    Bool.or_self, Bool.or_false, hxml, hex]
  by_cases hz : inp.exitCode != 0 <;> simp [hz]

theorem run_stale_eq (inp : RunInput) (chain subtree : List String) (fmt : ReportType)
    (hc : chainIdsOf inp.forest inp.root = some chain)
    (hs : subtreeIdsOf inp.forest inp.root = some subtree)
    (hcan : inp.cancelled = false) (h130 : (inp.exitCode == 130) = false)
    (hxml : chooseXmlFormatToParse (reportTypesToGenerate inp.reportFormats) = some fmt)
    (hex : inp.reportExists = true) (hstale : inp.reportStale = true) :
    runCodeceptionTest inp =
      ⟨(dedupFirst [] (chain ++ subtree)).map Mark.started
          ++ (if inp.exitCode != 0 then
                finalizeChainMarks chain (.failed (exitMessage inp.exitCode))
              else []),
        inp.forest, true⟩ := by
  unfold runCodeceptionTest
  rw [hc, hs]
  simp only [execProcess, hcan, Bool.false_eq_true, if_neg, not_false_iff, h130,
    Bool.or_self, Bool.or_false, hxml, hex, hstale]
  by_cases hz : inp.exitCode != 0 <;> simp [hz]

theorem run_emptyReport_eq (inp : RunInput) (chain subtree : List String) (fmt : ReportType)
    (hc : chainIdsOf inp.forest inp.root = some chain)
    (hs : subtreeIdsOf inp.forest inp.root = some subtree)
    (hcan : inp.cancelled = false) (h130 : (inp.exitCode == 130) = false)
    (hxml : chooseXmlFormatToParse (reportTypesToGenerate inp.reportFormats) = some fmt)
    (hex : inp.reportExists = true) (hstale : inp.reportStale = false)
    (hempty : (getReportTestcases inp.reportDoc).isEmpty = true) :
    runCodeceptionTest inp =
      ⟨(dedupFirst [] (chain ++ subtree)).map Mark.started
          ++ (if inp.exitCode != 0 then
                finalizeChainMarks chain (.failed (exitMessage inp.exitCode))
              else []),
        inp.forest, true⟩ := by
  unfold runCodeceptionTest
  rw [hc, hs]
  simp only [execProcess, hcan, Bool.false_eq_true, if_neg, not_false_iff, h130,
    Bool.or_self, Bool.or_false, hxml, hex, hstale, hempty]
  by_cases hz : inp.exitCode != 0 <;> simp [hz, hempty]

theorem run_processing_eq (inp : RunInput) (chain subtree : List String) (fmt : ReportType)
    (hc : chainIdsOf inp.forest inp.root = some chain)
    (hs : subtreeIdsOf inp.forest inp.root = some subtree)
    (hcan : inp.cancelled = false) (h130 : (inp.exitCode == 130) = false)
    (hxml : chooseXmlFormatToParse (reportTypesToGenerate inp.reportFormats) = some fmt)
    (hex : inp.reportExists = true) (hstale : inp.reportStale = false)
    (hempty : (getReportTestcases inp.reportDoc).isEmpty = false) :
    runCodeceptionTest inp =
      ⟨(dedupFirst [] (chain ++ subtree)).map Mark.started
          ++ ((recordPhase inp (chain.headD "") chain.tail (getReportTestcases inp.reportDoc)).marks
          ++ (subtree.map (finalizeSubtreeMark
              (recordPhase inp (chain.headD "") chain.tail
                (getReportTestcases inp.reportDoc)).subtreeOutcome)
          ++ (if inp.exitCode != 0 &&
                !(recordPhase inp (chain.headD "") chain.tail
                  (getReportTestcases inp.reportDoc)).hadFailure then
                finalizeChainMarks chain (.failed (exitMessage inp.exitCode))
              else
                finalizeChainMarks chain
                  (if (recordPhase inp (chain.headD "") chain.tail
                      (getReportTestcases inp.reportDoc)).hadFailure
                   then .failed "One or more child tests failed" else .passed)))),
        (recordPhase inp (chain.headD "") chain.tail (getReportTestcases inp.reportDoc)).forest,
        true⟩ := by
  unfold runCodeceptionTest
  rw [hc, hs]
  simp only [execProcess, hcan, Bool.false_eq_true, if_neg, not_false_iff, h130,
    Bool.or_self, Bool.or_false, hxml, hex, hstale, hempty]
  simp

theorem chainIdsOf_ne_nil {forest : List ProjectItem} {r : RunRoot} {chain : List String}
    (h : chainIdsOf forest r = some chain) : chain ≠ [] := by
  cases r with
  | projectR p =>
    simp only [chainIdsOf, Option.map_eq_some'] at h
    rcases h with ⟨pr, _, h2⟩
    simp [← h2]
  | suiteR p s =>
    simp only [chainIdsOf, Option.bind_eq_some, Option.map_eq_some'] at h
    rcases h with ⟨pr, _, su, _, h2⟩
    simp [← h2]
  | fileR p s f =>
    simp only [chainIdsOf, Option.bind_eq_some, Option.map_eq_some'] at h
    rcases h with ⟨pr, _, su, _, fi, _, h2⟩
    simp [← h2]
  | methodR p s f m =>
    simp only [chainIdsOf, Option.bind_eq_some, Option.map_eq_some'] at h
    rcases h with ⟨pr, _, su, _, fi, _, me, _, h2⟩
    simp [← h2]
  | datasetR p s f m d =>
    simp only [chainIdsOf, Option.bind_eq_some, Option.map_eq_some'] at h
    rcases h with ⟨pr, _, su, _, fi, _, me, _, ds, _, h2⟩
    simp [← h2]

theorem headD_mem {l : List String} (h : l ≠ []) : l.headD "" ∈ l := by
  cases l with
  | nil => exact absurd rfl h
  | cons a as => simp

theorem head?_dropWhile_not {α : Type} (p : α → Bool) (l : List α) :
    ∀ x, (l.dropWhile p).head? = some x → p x = false := by
  induction l with
  | nil => intro x hx; cases hx
  | cons a as ih =>
    intro x hx
    by_cases h : p a
    · rw [List.dropWhile_cons_of_pos h] at hx
      exact ih x hx
    · rw [List.dropWhile_cons_of_neg h] at hx
      simp only [List.head?_cons, Option.some_inj] at hx
      subst hx
      simpa using h

theorem getLast?_dropWhile {α : Type} (p : α → Bool) (l : List α)
    (h : l.dropWhile p ≠ []) : (l.dropWhile p).getLast? = l.getLast? := by
  induction l with
  | nil => simp at h
  | cons a as ih =>
    by_cases hp : p a
    · rw [List.dropWhile_cons_of_pos hp] at h ⊢
      have has : as ≠ [] := by
        intro he
        subst he
        simp at h
      rw [ih h, List.getLast?_cons]
      rcases he : as.getLast? with _ | x
      · exfalso
        rw [List.getLast?_eq_getLast_of_ne_nil has] at he
        cases he
      · simp
    · rw [List.dropWhile_cons_of_neg hp]

theorem dropWhile_eq_self_of_head {α : Type} (p : α → Bool) (l : List α)
    (h : ∀ x, l.head? = some x → p x = false) : l.dropWhile p = l := by
  cases l with
  | nil => rfl
  | cons a as =>
    have := h a rfl
    simp [List.dropWhile_cons, this]

theorem dropWhile_idem {α : Type} (p : α → Bool) (l : List α) :
    (l.dropWhile p).dropWhile p = l.dropWhile p := by
  apply dropWhile_eq_self_of_head
  intro x hx
  exact head?_dropWhile_not p l x hx

theorem trimChars_idem (s : List Char) : trimChars (trimChars s) = trimChars s := by
  unfold trimChars
  set w := Char.isWhitespace
  set A := s.dropWhile w with hA
  set B := (A.reverse.dropWhile w) with hB
  have hDrev : B.reverse.dropWhile w = B.reverse := by
    apply dropWhile_eq_self_of_head
    intro x hx
    rw [List.head?_reverse] at hx
    have hBne : B ≠ [] := by
      intro he
      rw [he] at hx
      cases hx
    rw [hB, getLast?_dropWhile w A.reverse (hB ▸ hBne)] at hx
    rw [List.getLast?_reverse] at hx
    exact head?_dropWhile_not w s x (hA ▸ hx)
  rw [hDrev, List.reverse_reverse, dropWhile_idem]

theorem strTrim_idem (s : String) : strTrim (strTrim s) = strTrim s := by
  unfold strTrim
  exact congrArg String.mk (trimChars_idem s.data)

/-- C8: command resolution.  A non-empty trimmed override is resolved against the
workspace root (verbatim when absolute, joined when relative) and never consults
the file system (the result is the same for any existence oracle); an empty
override prefers the vendored `vendor/bin/codecept` when it exists and falls
back to the bare command name `codecept`. -/
theorem c8_command_resolution (pathExistsOracle pathExistsOracle2 : String → Bool)
    (workspaceRoot : String) (configuredPath : Option String) :
    (strTrim (configuredPath.getD "") ≠ "" →
      findCodeceptCommand pathExistsOracle workspaceRoot configuredPath
        = (if isAbsolutePath (strTrim (configuredPath.getD ""))
           then strTrim (configuredPath.getD "")
           else pathJoin workspaceRoot (strTrim (configuredPath.getD ""))) ∧
      findCodeceptCommand pathExistsOracle workspaceRoot configuredPath
        = findCodeceptCommand pathExistsOracle2 workspaceRoot configuredPath) ∧
    (strTrim (configuredPath.getD "") = "" →
      findCodeceptCommand pathExistsOracle workspaceRoot configuredPath
        = (if pathExistsOracle (pathJoin (pathJoin (pathJoin workspaceRoot "vendor") "bin") "codecept")
           then pathJoin (pathJoin (pathJoin workspaceRoot "vendor") "bin") "codecept"
           else "codecept")) := by
  constructor
  · intro hne
    have hb : (strTrim (configuredPath.getD "")).data.isEmpty = false := by
      cases hh : (strTrim (configuredPath.getD "")).data.isEmpty
      · rfl
      · exact absurd (str_data_isEmpty_iff.mp hh) hne
    have hres : findCodeceptCommand pathExistsOracle workspaceRoot configuredPath
        = (if isAbsolutePath (strTrim (configuredPath.getD ""))
           then strTrim (configuredPath.getD "")
           else pathJoin workspaceRoot (strTrim (configuredPath.getD ""))) := by
      simp [findCodeceptCommand, hb, resolveWorkspacePath, strTrim_idem]
    refine ⟨hres, ?_⟩
    rw [hres]
    simp [findCodeceptCommand, hb, resolveWorkspacePath, strTrim_idem]
  · intro he
    have hb : (strTrim (configuredPath.getD "")).data.isEmpty = true := str_data_isEmpty_iff.mpr he
    simp [findCodeceptCommand, hb]

/-- C8 witness: a relative override `tools/codecept` is joined to the root and
ignores the oracle; with no override, the vendored binary wins when present. -/
theorem c8_command_resolution_witness :
    (strTrim ((some " tools/codecept ").getD "") ≠ "" ∧
      findCodeceptCommand (fun _ => false) "/w" (some " tools/codecept ")
        = "/w/tools/codecept") ∧
    (strTrim ((none : Option String).getD "") = "" ∧
      findCodeceptCommand (fun _ => true) "/w" none = "/w/vendor/bin/codecept") := by
  constructor
  · constructor
    · decide
    · have h := (c8_command_resolution (fun _ => false) (fun _ => true) "/w" (some " tools/codecept ")).1
        (by decide)
      rw [h.1]
      decide
  · constructor
    · decide
    · have h := (c8_command_resolution (fun _ => true) (fun _ => false) "/w" none).2 (by decide)
      rw [h]
      decide

theorem normalize_fold_mem (l : List String) : ∀ (acc : List ReportType) (t : ReportType),
    (t ∈ acc ∨ ∃ v ∈ l, reportTypeOfRaw v = some t) →
    t ∈ l.foldl
      (fun acc v =>
        match reportTypeOfRaw v with
        | some u => if acc.contains u then acc else acc ++ [u]
        | none => acc) acc := by
  induction l with
  | nil =>
    intro acc t h
    rcases h with h | ⟨v, hv, _⟩
    · exact h
    · cases hv
  | cons a as ih =>
    intro acc t h
    rw [List.foldl_cons]
    apply ih
    have hsub : ∀ u : ReportType, u ∈ acc →
        u ∈ (match reportTypeOfRaw a with
          | some u' => if acc.contains u' then acc else acc ++ [u']
          | none => acc) := by
      intro u hu
      rcases hr : reportTypeOfRaw a with _ | u'
      · simpa [hr] using hu
      · simp only [hr]
        by_cases hcon : u' ∈ acc
        · simp [hcon, hu]
        · simp [hcon, hu]
    rcases h with h | ⟨v, hv, hvt⟩
    · exact Or.inl (hsub t h)
    · rcases List.mem_cons.mp hv with hva | hva
      · subst hva
        left
        rw [hvt]
        by_cases hcon : t ∈ acc
        · simp [hcon]
        · simp [hcon]
      · exact Or.inr ⟨v, hva, hvt⟩

theorem normalizeReportTypes_mem_of {raw : List String} {v : String} {t : ReportType}
    (hv : v ∈ raw) (ht : reportTypeOfRaw v = some t) : t ∈ normalizeReportTypes raw := by
  unfold normalizeReportTypes
  exact normalize_fold_mem raw [] t (Or.inr ⟨v, hv, ht⟩)

/-- C9: report-format selection is deterministic and phpunit-first.  When the
normalised `reportFormats` contain phpunit, the parsed format is phpunit (default
file `phpunit-report.xml`) even if junit is also present; junit (`report.xml`)
is parsed exactly when phpunit is absent and junit present; an empty
normalisation defaults the run to generating and parsing junit.  The raw
strings `"phpunit"`/`"junit"` normalise to their formats. -/
theorem c9_report_format_selection (raw : List String) :
    (ReportType.phpunit ∈ normalizeReportTypes raw →
      chooseXmlFormatToParse (reportTypesToGenerate raw) = some ReportType.phpunit ∧
      (chooseXmlFormatToParse (reportTypesToGenerate raw)).map getDefaultReportFileName
        = some "phpunit-report.xml") ∧
    (ReportType.phpunit ∉ normalizeReportTypes raw →
      ReportType.junit ∈ normalizeReportTypes raw →
      chooseXmlFormatToParse (reportTypesToGenerate raw) = some ReportType.junit ∧
      (chooseXmlFormatToParse (reportTypesToGenerate raw)).map getDefaultReportFileName
        = some "report.xml") ∧
    (normalizeReportTypes raw = [] →
      reportTypesToGenerate raw = [ReportType.junit] ∧
      chooseXmlFormatToParse (reportTypesToGenerate raw) = some ReportType.junit ∧
      (chooseXmlFormatToParse (reportTypesToGenerate raw)).map getDefaultReportFileName
        = some "report.xml") ∧
    ("phpunit" ∈ raw → ReportType.phpunit ∈ normalizeReportTypes raw) ∧
    ("junit" ∈ raw → ReportType.junit ∈ normalizeReportTypes raw) := by
  refine ⟨?_, ?_, ?_, ?_, ?_⟩
  · intro hm
    have hgen : reportTypesToGenerate raw = normalizeReportTypes raw := by
      unfold reportTypesToGenerate
      have hne : normalizeReportTypes raw ≠ [] := List.ne_nil_of_mem hm
      have hemp : (normalizeReportTypes raw).isEmpty = false := by
        cases hh : (normalizeReportTypes raw).isEmpty
        · rfl
        · exact absurd (List.isEmpty_iff.mp hh) hne
      simp [hemp]
    rw [hgen]
    constructor
    · simp [chooseXmlFormatToParse, hm]
    · simp [chooseXmlFormatToParse, hm, getDefaultReportFileName]
  · intro hnm hm
    have hgen : reportTypesToGenerate raw = normalizeReportTypes raw := by
      unfold reportTypesToGenerate
      have hne : normalizeReportTypes raw ≠ [] := List.ne_nil_of_mem hm
      have hemp : (normalizeReportTypes raw).isEmpty = false := by
        cases hh : (normalizeReportTypes raw).isEmpty
        · rfl
        · exact absurd (List.isEmpty_iff.mp hh) hne
      simp [hemp]
    rw [hgen]
    constructor
    · simp [chooseXmlFormatToParse, hnm, hm]
    · simp [chooseXmlFormatToParse, hnm, hm, getDefaultReportFileName]
  · intro hnil
    have hgen : reportTypesToGenerate raw = [ReportType.junit] := by
      unfold reportTypesToGenerate
      simp [hnil]
    rw [hgen]
    refine ⟨rfl, by decide, by decide⟩
  · intro hm
    exact normalizeReportTypes_mem_of hm (by decide)
  · intro hm
    exact normalizeReportTypes_mem_of hm (by decide)

/-- C9 witness: with `reportFormats = ["junit", "phpunit"]` the phpunit report is
parsed; with `["junit"]` junit is; with `[]` junit is the default. -/
theorem c9_report_format_selection_witness :
    (ReportType.phpunit ∈ normalizeReportTypes ["junit", "phpunit"] ∧
      chooseXmlFormatToParse (reportTypesToGenerate ["junit", "phpunit"])
        = some ReportType.phpunit) ∧
    (ReportType.phpunit ∉ normalizeReportTypes ["junit"] ∧
      chooseXmlFormatToParse (reportTypesToGenerate ["junit"]) = some ReportType.junit) ∧
    (normalizeReportTypes [] = [] ∧
      reportTypesToGenerate [] = [ReportType.junit]) := by
  refine ⟨⟨by decide, ?_⟩, ⟨by decide, ?_⟩, by decide, ?_⟩
  · exact ((c9_report_format_selection ["junit", "phpunit"]).1 (by decide)).1
  · exact (((c9_report_format_selection ["junit"]).2.1 (by decide)) (by decide)).1
  · exact (((c9_report_format_selection []).2.2.1 rfl)).1

/-- C10: dataset extraction yields nothing both when the feature has no `|` and
when the substring after the first `|`, trimmed and entity-decoded, is empty;
in either case the matched record resolves to the method node itself and no
dataset child is created (the forest is returned unchanged). -/
theorem c10_empty_dataset_extraction (feature : String) (forest : List ProjectItem)
    (rootId : String) (rootRest : List String) (tc : JTestcase)
    (p : Nat) (proj : ProjectItem) (s : Nat) (suite : SuiteItem) (f : Nat) (file : FileItem)
    (mi : Nat) (m : MethodItem) :
    (afterFirstChar '|' feature.data = none ↔ '|' ∉ feature.data) ∧
    (afterFirstChar '|' feature.data = none → extractDatasetFromFeature feature = none) ∧
    (∀ rest, afterFirstChar '|' feature.data = some rest →
      decodeHtmlEntities (strTrim (String.mk rest)) = "" →
      extractDatasetFromFeature feature = none) ∧
    (extractDatasetFromFeature feature = none →
      afterFirstChar '|' feature.data = none ∨
        ∃ rest, afterFirstChar '|' feature.data = some rest ∧
          decodeHtmlEntities (strTrim (String.mk rest)) = "") ∧
    (findFileLoc (jsOr tc.file "") forest = some (p, proj, s, suite, f, file) →
      findMethodInFile (jsOr tc.name "unknown") (stripDataSetSuffix (jsOr tc.name "unknown"))
          file.methods = some (mi, m) →
      extractDatasetFromFeature (jsOr tc.feature "") = none →
      matchRecord forest rootId rootRest tc
        = ⟨forest, m.id, [file.id, suite.id, proj.id], some (m.id, [file.id, suite.id, proj.id])⟩) := by
  refine ⟨afterFirstChar_eq_none_iff, ?_, ?_, ?_, ?_⟩
  · intro h
    unfold extractDatasetFromFeature
    rw [h]
  · intro rest hrest hdec
    unfold extractDatasetFromFeature
    rw [hrest]
    simp only [str_data_isEmpty_iff.mpr hdec]
    rfl
  · intro h
    unfold extractDatasetFromFeature at h
    rcases ha : afterFirstChar '|' feature.data with _ | rest
    · exact Or.inl rfl
    · right
      refine ⟨rest, rfl, ?_⟩
      rw [ha] at h
      simp only at h
      by_cases hd : (decodeHtmlEntities (strTrim (String.mk rest))).data.isEmpty
      · exact str_data_isEmpty_iff.mp hd
      · rw [if_neg hd] at h
        cases h
  · intro hfile hmeth hext
    have hdataset :
        (if !(jsOr tc.feature "").data.isEmpty
          then extractDatasetFromFeature (jsOr tc.feature "") else none) = none := by
      by_cases hfe : (jsOr tc.feature "").data.isEmpty
      · simp [hfe]
      · simp [hfe, hext]
    simp only [matchRecord, hfile, hmeth, hdataset]

/-- C10 witness: the feature `x|  ` has a `|` but trims/decodes to nothing, so a
record carrying it resolves to the method node with the forest unchanged. -/
theorem c10_empty_dataset_extraction_witness :
    extractDatasetFromFeature "x|  " = none ∧
    matchRecord c4Forest "p" []
        ⟨some "testFoo", some "/ws/tests/unit/FooTest.php", some "x|  ", none, none, none⟩
      = ⟨c4Forest, "m", ["f", "s", "p"], some ("m", ["f", "s", "p"])⟩ := by
  have h := c10_empty_dataset_extraction "x|  " c4Forest "p" []
    ⟨some "testFoo", some "/ws/tests/unit/FooTest.php", some "x|  ", none, none, none⟩
    0 ⟨"p", "WS", some "/ws",
        [⟨"s", "unit", some "/ws/tests/unit",
          [⟨"f", "FooTest.php", some "/ws/tests/unit/FooTest.php",
            [⟨"m", "testFoo", some "/ws/tests/unit/FooTest.php", []⟩]⟩]⟩]⟩
    0 ⟨"s", "unit", some "/ws/tests/unit",
        [⟨"f", "FooTest.php", some "/ws/tests/unit/FooTest.php",
          [⟨"m", "testFoo", some "/ws/tests/unit/FooTest.php", []⟩]⟩]⟩
    0 ⟨"f", "FooTest.php", some "/ws/tests/unit/FooTest.php",
        [⟨"m", "testFoo", some "/ws/tests/unit/FooTest.php", []⟩]⟩
    0 ⟨"m", "testFoo", some "/ws/tests/unit/FooTest.php", []⟩
  refine ⟨h.2.2.1 "  ".data (by decide) (by decide), ?_⟩
  exact h.2.2.2.2 (by decide) (by decide) (by decide)

theorem maxDatasetIndex_eq_filterMap (ds : List DatasetItem) :
    maxDatasetIndex ds
      = (ds.filterMap (fun d => datasetIndexOf d.id)).foldl
          (fun (a : Int) (n : Nat) => max a (n : Int)) (-1) := by
  unfold maxDatasetIndex
  generalize (-1 : Int) = init
  induction ds generalizing init with
  | nil => rfl
  | cons d rest ih =>
    rcases hd : datasetIndexOf d.id with _ | n
    · simp [List.foldl_cons, List.filterMap_cons, hd, ih]
    · simp [List.foldl_cons, List.filterMap_cons, hd, ih]

theorem foldlMax_le (l : List Nat) : ∀ init : Int,
    init ≤ l.foldl (fun (a : Int) (n : Nat) => max a (n : Int)) init := by
  induction l with
  | nil => intro init; simp
  | cons n rest ih =>
    intro init
    rw [List.foldl_cons]
    calc init ≤ max init (n : Int) := le_max_left _ _
    _ ≤ rest.foldl (fun (a : Int) (n : Nat) => max a (n : Int)) (max init (n : Int)) := ih _

theorem foldlMax_mem_le (l : List Nat) : ∀ (init : Int) (i : Nat), i ∈ l →
    (i : Int) ≤ l.foldl (fun (a : Int) (n : Nat) => max a (n : Int)) init := by
  induction l with
  | nil => intro init i hi; cases hi
  | cons n rest ih =>
    intro init i hi
    rw [List.foldl_cons]
    rcases List.mem_cons.mp hi with h | h
    · subst h
      calc (i : Int) ≤ max init (i : Int) := le_max_right _ _
      _ ≤ rest.foldl (fun (a : Int) (n : Nat) => max a (n : Int)) (max init (i : Int)) :=
        foldlMax_le rest _
    · exact ih _ i h

theorem foldlMax_cases (l : List Nat) : ∀ init : Int,
    l.foldl (fun (a : Int) (n : Nat) => max a (n : Int)) init = init ∨
      ∃ i ∈ l, l.foldl (fun (a : Int) (n : Nat) => max a (n : Int)) init = (i : Int) := by
  induction l with
  | nil => intro init; exact Or.inl rfl
  | cons n rest ih =>
    intro init
    rw [List.foldl_cons]
    rcases ih (max init (n : Int)) with h | ⟨i, hi, h⟩
    · rcases max_cases init (n : Int) with ⟨hm, _⟩ | ⟨hm, _⟩
      · exact Or.inl (by rw [h, hm])
      · exact Or.inr ⟨n, List.mem_cons_self n rest, by rw [h, hm]⟩
    · exact Or.inr ⟨i, List.mem_cons_of_mem _ hi, h⟩

theorem findReusableDataset_append_none {t : String} {a b : List DatasetItem}
    (h : findReusableDataset t a = none) :
    findReusableDataset t (a ++ b) = findReusableDataset t b := by
  induction a with
  | nil => rfl
  | cons d rest ih =>
    unfold findReusableDataset at h
    by_cases hc : (strContainsSub d.id "::data::" && strEndsWith d.label (" " ++ t)) = true
    · rw [if_pos hc] at h
      cases h
    · rw [if_neg hc] at h
      rw [List.cons_append]
      rw [show findReusableDataset t (d :: (rest ++ b))
            = if (strContainsSub d.id "::data::" && strEndsWith d.label (" " ++ t)) = true
              then some d else findReusableDataset t (rest ++ b) from rfl]
      rw [if_neg hc]
      exact ih h

theorem newDataset_matches (mId t : String) (n : Nat) :
    (strContainsSub (mId ++ "::data::" ++ toString n) "::data::"
      && strEndsWith ("[" ++ toString n ++ "] " ++ t) (" " ++ t)) = true := by
  apply Bool.and_eq_true_iff.mpr
  constructor
  · unfold strContainsSub
    have hdata : (mId ++ "::data::" ++ toString n).data
        = mId.data ++ ("::data::".data ++ (toString n).data) := by
      simp [string_data_append]
    rw [hdata]
    exact listContainsSub_of_middle _ _ _
  · unfold strEndsWith
    have hsuffix : (" " ++ t).data = [' '] ++ t.data := rfl
    have hdata : ("[" ++ toString n ++ "] " ++ t).data
        = ("[".data ++ (toString n).data ++ [']']) ++ ([' '] ++ t.data) := by
      simp [string_data_append]
    rw [hsuffix, hdata]
    exact isSuffixOf_append _ _

/-- C5 (amended): dataset lookup-or-create.  Reuse is decided by the label-suffix
scan: when some existing dataset child's label ends with a space followed by the
decoded text, that (first such) child is returned and nothing is created — in
particular a second call with the text just used is a no-op returning the same
child.  When no existing label ends with the text, a new child is created with
index `maxDatasetIndex + 1` (`0` when no indexed child exists; strictly above
every existing index and exactly one above the largest), labelled
`[index] text`. -/
theorem c5_dataset_reuse_amended (m : MethodItem) (t : String) :
    (∀ d, findReusableDataset t m.datasets = some d →
      getOrCreateDatasetItem m t = (m, d.id, false)) ∧
    (findReusableDataset t m.datasets = none →
      getOrCreateDatasetItem m t
        = ({ m with datasets := m.datasets ++
              [⟨m.id ++ "::data::" ++ toString ((maxDatasetIndex m.datasets + 1).toNat),
                "[" ++ toString ((maxDatasetIndex m.datasets + 1).toNat) ++ "] " ++ t,
                m.uri⟩] },
           m.id ++ "::data::" ++ toString ((maxDatasetIndex m.datasets + 1).toNat), true) ∧
      (m.datasets.filterMap (fun d => datasetIndexOf d.id) = [] →
        (maxDatasetIndex m.datasets + 1).toNat = 0) ∧
      (∀ i ∈ m.datasets.filterMap (fun d => datasetIndexOf d.id),
        i < (maxDatasetIndex m.datasets + 1).toNat) ∧
      (m.datasets.filterMap (fun d => datasetIndexOf d.id) ≠ [] →
        (maxDatasetIndex m.datasets + 1).toNat - 1
          ∈ m.datasets.filterMap (fun d => datasetIndexOf d.id))) ∧
    (∀ m' dsId created, getOrCreateDatasetItem m t = (m', dsId, created) →
      getOrCreateDatasetItem m' t = (m', dsId, false)) := by
  refine ⟨?_, ?_, ?_⟩
  · intro d hd
    unfold getOrCreateDatasetItem
    rw [hd]
  · intro hnone
    refine ⟨?_, ?_, ?_, ?_⟩
    · unfold getOrCreateDatasetItem
      rw [hnone]
    · intro hnil
      rw [maxDatasetIndex_eq_filterMap, hnil]
      rfl
    · intro i hi
      have hle := foldlMax_mem_le _ (-1) i hi
      rw [← maxDatasetIndex_eq_filterMap] at hle
      omega
    · intro hne
      rcases foldlMax_cases (m.datasets.filterMap (fun d => datasetIndexOf d.id)) (-1)
        with h | ⟨i, hi, h⟩
      · exfalso
        rcases List.exists_mem_of_ne_nil _ hne with ⟨i, hi⟩
        have hle := foldlMax_mem_le _ (-1) i hi
        rw [h] at hle
        omega
      · rw [← maxDatasetIndex_eq_filterMap] at h
        have : (maxDatasetIndex m.datasets + 1).toNat - 1 = i := by omega
        rw [this]
        exact hi
  · intro m' dsId created heq
    rcases hd : findReusableDataset t m.datasets with _ | d
    · unfold getOrCreateDatasetItem at heq
      rw [hd] at heq
      simp only [Prod.mk.injEq] at heq
      obtain ⟨hm', hds, _⟩ := heq
      subst hm'
      subst hds
      unfold getOrCreateDatasetItem
      have hfind :
          findReusableDataset t
            (m.datasets ++
              [⟨m.id ++ "::data::" ++ toString ((maxDatasetIndex m.datasets + 1).toNat),
                "[" ++ toString ((maxDatasetIndex m.datasets + 1).toNat) ++ "] " ++ t,
                m.uri⟩])
          = some ⟨m.id ++ "::data::" ++ toString ((maxDatasetIndex m.datasets + 1).toNat),
                "[" ++ toString ((maxDatasetIndex m.datasets + 1).toNat) ++ "] " ++ t,
                m.uri⟩ := by
        rw [findReusableDataset_append_none hd]
        unfold findReusableDataset
        rw [if_pos (newDataset_matches m.id t ((maxDatasetIndex m.datasets + 1).toNat))]
      rw [hfind]
    · unfold getOrCreateDatasetItem at heq
      rw [hd] at heq
      simp only [Prod.mk.injEq] at heq
      obtain ⟨hm', hds, _⟩ := heq
      subst hm'
      subst hds
      unfold getOrCreateDatasetItem
      rw [hd]

/-- C5 counterexample: the claim says a record whose decoded text differs from
every existing child's text creates a new child.  With existing child
`[0] 1 2` (decoded text `1 2`) and new distinct text `2`, the suffix scan
matches `[0] 1 2` (it ends with a space and `2`), so the existing child is
returned and no `[1] 2` child is created. -/
theorem c5_dataset_reuse_counterexample :
    extractDatasetFromFeature "x|2" = some "2" ∧
    extractDatasetFromFeature "x|1 2" = some "1 2" ∧
    ("2" = "1 2" → False) ∧
    c5Method.datasets.map DatasetItem.label = ["[0] 1 2"] ∧
    getOrCreateDatasetItem c5Method "2" = (c5Method, "M::data::0", false) := by
  decide

/-- C5 witness: with the same method and fresh text `3`, no label ends with
` 3`, so a new child `[1] 3` with id index 1 (= max index 0 plus one) is
created. -/
theorem c5_dataset_reuse_amended_witness :
    findReusableDataset "3" c5Method.datasets = none ∧
    getOrCreateDatasetItem c5Method "3"
      = ({ c5Method with datasets := c5Method.datasets ++ [⟨"M::data::1", "[1] 3", none⟩] },
         "M::data::1", true) ∧
    getOrCreateDatasetItem
        ({ c5Method with datasets := c5Method.datasets ++ [⟨"M::data::1", "[1] 3", none⟩] }) "3"
      = ({ c5Method with datasets := c5Method.datasets ++ [⟨"M::data::1", "[1] 3", none⟩] },
         "M::data::1", false) := by
  have h2 := (c5_dataset_reuse_amended c5Method "3").2.1 (by decide)
  have h3 := (c5_dataset_reuse_amended c5Method "3").2.2 _ _ _ h2.1
  refine ⟨by decide, ?_, ?_⟩
  · rw [h2.1]
    decide
  · have em : ({ c5Method with
          datasets := c5Method.datasets ++ [⟨"M::data::1", "[1] 3", none⟩] } : MethodItem)
        = { c5Method with
            datasets := c5Method.datasets ++
              [⟨c5Method.id ++ "::data::"
                  ++ toString ((maxDatasetIndex c5Method.datasets + 1).toNat),
                "[" ++ toString ((maxDatasetIndex c5Method.datasets + 1).toNat) ++ "] " ++ "3",
                c5Method.uri⟩] } := by decide
    have ei : ("M::data::1" : String)
        = c5Method.id ++ "::data::" ++ toString ((maxDatasetIndex c5Method.datasets + 1).toNat) := by
      decide
    rw [em, ei]
    exact h3

/-- C7: report parsing flattens testcases by recursing through nested
`testsuite` elements (covering the flat and nested schemas), first from the
`testsuites` root and, when that yields nothing, retrying with the whole
document; an empty final list is a terminal state under which the run is
resolved solely from the exit code (chain failed with the exit-code message on
non-zero exit, nothing further on exit 0), with no error raised. -/
theorem c7_report_collection (d : JDoc) (tcs : List JTestcase) (suites : List JNode)
    (inp : RunInput) (chain subtree : List String) (fmt : ReportType) :
    (collectFromJNode (JNode.mk tcs suites)
      = tcs ++ (suites.map collectFromJNode).flatten) ∧
    (getReportTestcases d
      = (if (collectTestcasesFromNode d.testsuites).isEmpty
         then collectFromJNode (docAsNode d)
         else collectTestcasesFromNode d.testsuites)) ∧
    (chainIdsOf inp.forest inp.root = some chain →
      subtreeIdsOf inp.forest inp.root = some subtree →
      inp.cancelled = false → (inp.exitCode == 130) = false →
      chooseXmlFormatToParse (reportTypesToGenerate inp.reportFormats) = some fmt →
      inp.reportExists = true → inp.reportStale = false →
      getReportTestcases inp.reportDoc = [] →
      (runCodeceptionTest inp).marks
        = (dedupFirst [] (chain ++ subtree)).map Mark.started
            ++ (if inp.exitCode != 0
                then finalizeChainMarks chain (.failed (exitMessage inp.exitCode))
                else [])) := by
  refine ⟨?_, ?_, ?_⟩
  · rw [collectFromJNode]
    congr 1
    induction suites with
    | nil => rfl
    | cons s rest ih => simp [collectFromJList, ih]
  · rfl
  · intro hc hs hcan h130 hxml hex hstale hnil
    have hempty : (getReportTestcases inp.reportDoc).isEmpty = true := by
      simp [hnil]
    rw [run_emptyReport_eq inp chain subtree fmt hc hs hcan h130 hxml hex hstale hempty]

/-- C7 witness: a nested two-suite document flattens in order; an empty report
with exit code 2 resolves the chain as failed from the exit code alone. -/
theorem c7_report_collection_witness :
    (collectFromJNode
        (JNode.mk [c4Record1 "x|a"] [JNode.mk [c4Record2 "x|b"] []])
      = [c4Record1 "x|a", c4Record2 "x|b"]) ∧
    getReportTestcases emptyDoc = [] ∧
    (runCodeceptionTest ⟨c4Forest, .projectR 0, ["junit"], false, 2, true, false, emptyDoc⟩).marks
      = (dedupFirst [] (["p"] ++ ["p", "s", "f", "m"])).map Mark.started
          ++ finalizeChainMarks ["p"] (.failed (exitMessage 2)) := by
  refine ⟨?_, by decide, ?_⟩
  · rw [(c7_report_collection emptyDoc [c4Record1 "x|a"] [JNode.mk [c4Record2 "x|b"] []]
      ⟨c4Forest, .projectR 0, ["junit"], false, 2, true, false, emptyDoc⟩
      ["p"] ["p", "s", "f", "m"] ReportType.junit).1]
    decide
  · have h := (c7_report_collection emptyDoc [] []
      ⟨c4Forest, .projectR 0, ["junit"], false, 2, true, false, emptyDoc⟩
      ["p"] ["p", "s", "f", "m"] ReportType.junit).2.2
      (by decide) (by decide) rfl (by decide) (by decide) rfl rfl (by decide)
    rw [h]
    decide

/-- C6 (amended): a cancellation signal that fired before spawn makes
`execProcess` resolve with the sentinel 130 without invoking the external
command, and the nodes of the run root's self-and-ancestor chain all resolve
skipped; but started nodes strictly below the run root are not finalized — their
last mark remains `started` (only `finalizeChain` runs on this path). -/
theorem c6_cancellation_amended (inp : RunInput) (chain subtree : List String)
    (hc : chainIdsOf inp.forest inp.root = some chain)
    (hs : subtreeIdsOf inp.forest inp.root = some subtree)
    (hcan : inp.cancelled = true) :
    execProcess inp.cancelled inp.exitCode = (false, 130) ∧
    (runCodeceptionTest inp).spawned = false ∧
    (∀ id ∈ chain, finalMark (runCodeceptionTest inp).marks id = some (Mark.skipped id)) ∧
    (∀ id, id ∈ subtree → id ∉ chain →
      finalMark (runCodeceptionTest inp).marks id = some (Mark.started id)) := by
  have hrun := run_cancelled_eq inp chain subtree hc hs hcan
  refine ⟨by simp [execProcess, hcan], by rw [hrun], ?_, ?_⟩
  · intro id hid
    rw [hrun]
    exact finalMark_chain_marks _ chain .skipped hid
  · intro id hsub hnch
    rw [hrun]
    have hmem : id ∈ dedupFirst [] (chain ++ subtree) :=
      dedupFirst_mem.mpr ⟨List.mem_append_right _ hsub, List.not_mem_nil id⟩
    have hstart : marksFor id ((dedupFirst [] (chain ++ subtree)).map Mark.started)
        = [Mark.started id] := by
      rw [marksFor_map_eq id Mark.started (fun x => rfl)]
      rw [filter_strEq_of_nodup (dedupFirst_nodup [] (chain ++ subtree)) hmem]
      rfl
    have hchain : marksFor id (finalizeChainMarks chain .skipped) = [] := by
      unfold finalizeChainMarks
      rw [marksFor_map_eq id _ (markOfOutcome_idOf .skipped)]
      rw [filter_strEq_eq_nil hnch]
      rfl
    unfold finalMark
    rw [marksFor_append, hstart, hchain, List.append_nil]
    rfl

/-- C6 counterexample: in a cancelled run of the project root `p`, the suite
child `s` is marked started but never resolves — its final state stays
`started`, not `skipped`, so "all started nodes resolve skipped" is false. -/
theorem c6_cancellation_counterexample :
    (runCodeceptionTest c6CancelledInput).spawned = false ∧
    Mark.started "s" ∈ (runCodeceptionTest c6CancelledInput).marks ∧
    finalMark (runCodeceptionTest c6CancelledInput).marks "s" = some (Mark.started "s") ∧
    (finalMark (runCodeceptionTest c6CancelledInput).marks "s"
      = some (Mark.skipped "s") → False) := by
  decide

/-- C6 witness: the cancelled project-root run spawns nothing and resolves the
chain node `p` as skipped. -/
theorem c6_cancellation_amended_witness :
    chainIdsOf c6CancelledInput.forest c6CancelledInput.root = some ["p"] ∧
    c6CancelledInput.cancelled = true ∧
    (runCodeceptionTest c6CancelledInput).spawned = false ∧
    finalMark (runCodeceptionTest c6CancelledInput).marks "p" = some (Mark.skipped "p") := by
  have h := c6_cancellation_amended c6CancelledInput ["p"] ["p", "s", "f", "m"]
    (by decide) (by decide) rfl
  exact ⟨by decide, rfl, h.2.1, h.2.2.1 "p" (by decide)⟩

theorem finalizeChainMarks_not_started (chain : List String) (o : TestOutcome) :
    ∀ m ∈ finalizeChainMarks chain o, m.isStarted = false := by
  intro m hm
  rcases List.mem_map.mp hm with ⟨x, _, hx⟩
  rw [← hx]
  exact markOfOutcome_not_started _ _

theorem ite_chainMarks_not_started {c : Prop} [Decidable c] (chain : List String)
    (o : TestOutcome) :
    ∀ m ∈ (if c then finalizeChainMarks chain o else ([] : List Mark)),
      m.isStarted = false := by
  intro m hm
  by_cases hcc : c
  · rw [if_pos hcc] at hm
    exact finalizeChainMarks_not_started chain o m hm
  · rw [if_neg hcc] at hm
    cases hm

theorem run_marks_shape (inp : RunInput) (chain subtree : List String)
    (hc : chainIdsOf inp.forest inp.root = some chain)
    (hs : subtreeIdsOf inp.forest inp.root = some subtree) :
    ∃ rest, (runCodeceptionTest inp).marks
        = (dedupFirst [] (chain ++ subtree)).map Mark.started ++ rest ∧
      ∀ m ∈ rest, m.isStarted = false := by
  by_cases hcan : inp.cancelled = true
  · rw [run_cancelled_eq inp chain subtree hc hs hcan]
    exact ⟨_, rfl, finalizeChainMarks_not_started chain .skipped⟩
  · have hcan' : inp.cancelled = false := by simpa using hcan
    by_cases h130 : (inp.exitCode == 130) = true
    · rw [run_exit130_eq inp chain subtree hc hs hcan' h130]
      exact ⟨_, rfl, finalizeChainMarks_not_started chain .skipped⟩
    · have h130' : (inp.exitCode == 130) = false := by simpa using h130
      rcases hxml : chooseXmlFormatToParse (reportTypesToGenerate inp.reportFormats) with _ | fmt
      · rw [run_noXml_eq inp chain subtree hc hs hcan' h130' hxml]
        refine ⟨_, rfl, ?_⟩
        intro m hm
        by_cases hz : (inp.exitCode != 0) = true
        · rw [if_pos hz] at hm
          exact finalizeChainMarks_not_started chain _ m hm
        · rw [if_neg (by simpa using hz)] at hm
          exact finalizeChainMarks_not_started chain _ m hm
      · by_cases hex : inp.reportExists = true
        · by_cases hstale : inp.reportStale = true
          · rw [run_stale_eq inp chain subtree fmt hc hs hcan' h130' hxml hex hstale]
            exact ⟨_, rfl, ite_chainMarks_not_started chain _⟩
          · have hstale' : inp.reportStale = false := by simpa using hstale
            by_cases hempty : (getReportTestcases inp.reportDoc).isEmpty = true
            · rw [run_emptyReport_eq inp chain subtree fmt hc hs hcan' h130' hxml hex hstale' hempty]
              exact ⟨_, rfl, ite_chainMarks_not_started chain _⟩
            · have hempty' : (getReportTestcases inp.reportDoc).isEmpty = false := by
                simpa using hempty
              rw [run_processing_eq inp chain subtree fmt hc hs hcan' h130' hxml hex hstale' hempty']
              refine ⟨_, rfl, ?_⟩
              intro m hm
              rcases List.mem_append.mp hm with hm | hm
              · exact (recordPhase_inv inp (chain.headD "") chain.tail
                  (getReportTestcases inp.reportDoc)).1 m hm
              · rcases List.mem_append.mp hm with hm | hm
                · rcases List.mem_map.mp hm with ⟨x, _, hx⟩
                  rw [← hx]
                  exact finalizeSubtreeMark_not_started _ _
                · by_cases hz : (inp.exitCode != 0 &&
                      !(recordPhase inp (chain.headD "") chain.tail
                        (getReportTestcases inp.reportDoc)).hadFailure) = true
                  · rw [if_pos hz] at hm
                    exact finalizeChainMarks_not_started chain _ m hm
                  · rw [if_neg (by simpa using hz)] at hm
                    exact finalizeChainMarks_not_started chain _ m hm
        · have hex' : inp.reportExists = false := by simpa using hex
          rw [run_absent_eq inp chain subtree fmt hc hs hcan' h130' hxml hex']
          exact ⟨_, rfl, ite_chainMarks_not_started chain _⟩

theorem count_map_started (l : List String) (id : String) :
    (l.map Mark.started).count (Mark.started id) = l.count id := by
  induction l with
  | nil => rfl
  | cons a as ih =>
    rw [List.map_cons, List.count_cons, List.count_cons, ih]
    by_cases h : a = id
    · subst h
      simp
    · have h2 : (Mark.started a == Mark.started id) = false := by
        simp [h]
      have h3 : (a == id) = false := by
        simp [h]
      rw [h2, h3]

/-- C2: before any report record is processed, the set of nodes marked started
is exactly the run root's self-and-ancestor chain united with its
self-and-descendant set, and each node in that union is marked started exactly
once: the run's marks start with one `started` mark per id of the deduplicated
union, no later mark is a `started` mark, and the overall count of `started id`
is one for every id of the union. -/
theorem c2_started_set (inp : RunInput) (chain subtree : List String)
    (hc : chainIdsOf inp.forest inp.root = some chain)
    (hs : subtreeIdsOf inp.forest inp.root = some subtree) :
    (∃ rest, (runCodeceptionTest inp).marks
        = (dedupFirst [] (chain ++ subtree)).map Mark.started ++ rest ∧
        ∀ m ∈ rest, m.isStarted = false) ∧
    (∀ id, id ∈ dedupFirst [] (chain ++ subtree) ↔ id ∈ chain ∨ id ∈ subtree) ∧
    (dedupFirst [] (chain ++ subtree)).Nodup ∧
    (∀ id, id ∈ chain ∨ id ∈ subtree →
      ((runCodeceptionTest inp).marks.count (Mark.started id)) = 1) := by
  refine ⟨run_marks_shape inp chain subtree hc hs, ?_, dedupFirst_nodup [] _, ?_⟩
  · intro id
    rw [dedupFirst_mem]
    simp
  · intro id hid
    rcases run_marks_shape inp chain subtree hc hs with ⟨rest, heq, hrest⟩
    rw [heq, List.count_append]
    have hmem : id ∈ dedupFirst [] (chain ++ subtree) :=
      dedupFirst_mem.mpr ⟨List.mem_append.mpr hid, List.not_mem_nil id⟩
    have h1 : ((dedupFirst [] (chain ++ subtree)).map Mark.started).count (Mark.started id)
        = 1 := by
      rw [count_map_started]
      exact List.count_eq_one_of_mem (dedupFirst_nodup [] _) hmem
    have h0 : rest.count (Mark.started id) = 0 := by
      apply List.count_eq_zero.mpr
      intro hmm
      have := hrest _ hmm
      simp [Mark.isStarted] at this
    rw [h1, h0]

/-- C2 witness: for the project-root run, the suite node `s` lies in the
chain-union-subtree set and is marked started exactly once. -/
theorem c2_started_set_witness :
    chainIdsOf c1AbsentInput.forest c1AbsentInput.root = some ["p"] ∧
    ("s" ∈ dedupFirst [] (["p"] ++ ["p", "s", "f", "m"]) ↔
      "s" ∈ ["p"] ∨ "s" ∈ ["p", "s", "f", "m"]) ∧
    ((runCodeceptionTest c1AbsentInput).marks.count (Mark.started "s")) = 1 := by
  have h := c2_started_set c1AbsentInput ["p"] ["p", "s", "f", "m"] (by decide) (by decide)
  exact ⟨by decide, h.2.1 "s", h.2.2.2 "s" (Or.inr (by decide))⟩

theorem finalMark_chain_marks3 {id : String} (a b c : List Mark) (chain : List String)
    (o : TestOutcome) (hid : id ∈ chain) :
    finalMark (a ++ (b ++ (c ++ finalizeChainMarks chain o))) id
      = some (markOfOutcome o id) := by
  have h : a ++ (b ++ (c ++ finalizeChainMarks chain o))
      = (a ++ b ++ c) ++ finalizeChainMarks chain o := by
    simp [List.append_assoc]
  rw [h]
  exact finalMark_chain_marks _ chain o hid

/-- C3: exit-code-only verdicts.  With no XML format configured the run root
ends passed on exit 0 and failed with the exit-code message on non-zero exit;
with a format configured but the report absent, stale, or empty of records and
a non-zero exit the root ends failed with the exit-code message; when records
were processed but none failed and the exit code is non-zero, the root again
ends failed with the exit-code message; and the message always contains the
decimal exit code. -/
theorem c3_exit_code_policy (inp : RunInput) (chain subtree : List String)
    (hc : chainIdsOf inp.forest inp.root = some chain)
    (hs : subtreeIdsOf inp.forest inp.root = some subtree)
    (hcan : inp.cancelled = false) (h130 : (inp.exitCode == 130) = false) :
    (chooseXmlFormatToParse (reportTypesToGenerate inp.reportFormats) = none →
      inp.exitCode = 0 →
      finalMark (runCodeceptionTest inp).marks (chain.headD "")
        = some (Mark.passed (chain.headD ""))) ∧
    (chooseXmlFormatToParse (reportTypesToGenerate inp.reportFormats) = none →
      inp.exitCode ≠ 0 →
      finalMark (runCodeceptionTest inp).marks (chain.headD "")
        = some (Mark.failed (chain.headD "") (exitMessage inp.exitCode))) ∧
    (∀ fmt, chooseXmlFormatToParse (reportTypesToGenerate inp.reportFormats) = some fmt →
      inp.reportExists = false → inp.exitCode ≠ 0 →
      finalMark (runCodeceptionTest inp).marks (chain.headD "")
        = some (Mark.failed (chain.headD "") (exitMessage inp.exitCode))) ∧
    (∀ fmt, chooseXmlFormatToParse (reportTypesToGenerate inp.reportFormats) = some fmt →
      inp.reportExists = true → inp.reportStale = true → inp.exitCode ≠ 0 →
      finalMark (runCodeceptionTest inp).marks (chain.headD "")
        = some (Mark.failed (chain.headD "") (exitMessage inp.exitCode))) ∧
    (∀ fmt, chooseXmlFormatToParse (reportTypesToGenerate inp.reportFormats) = some fmt →
      inp.reportExists = true → inp.reportStale = false →
      (getReportTestcases inp.reportDoc).isEmpty = true → inp.exitCode ≠ 0 →
      finalMark (runCodeceptionTest inp).marks (chain.headD "")
        = some (Mark.failed (chain.headD "") (exitMessage inp.exitCode))) ∧
    (∀ fmt, chooseXmlFormatToParse (reportTypesToGenerate inp.reportFormats) = some fmt →
      inp.reportExists = true → inp.reportStale = false →
      (getReportTestcases inp.reportDoc).isEmpty = false →
      (recordPhase inp (chain.headD "") chain.tail
        (getReportTestcases inp.reportDoc)).hadFailure = false →
      inp.exitCode ≠ 0 →
      finalMark (runCodeceptionTest inp).marks (chain.headD "")
        = some (Mark.failed (chain.headD "") (exitMessage inp.exitCode))) ∧
    (∀ n : Int, strContainsSub (exitMessage n) (toString n) = true) := by
  have hroot : chain.headD "" ∈ chain := headD_mem (chainIdsOf_ne_nil hc)
  refine ⟨?_, ?_, ?_, ?_, ?_, ?_, ?_⟩
  · intro hxml h0
    rw [run_noXml_eq inp chain subtree hc hs hcan h130 hxml]
    rw [if_neg (by simp [h0])]
    exact finalMark_chain_marks _ chain .passed hroot
  · intro hxml hne
    rw [run_noXml_eq inp chain subtree hc hs hcan h130 hxml]
    rw [if_pos (by simp [hne])]
    exact finalMark_chain_marks _ chain (.failed (exitMessage inp.exitCode)) hroot
  · intro fmt hxml hex hne
    rw [run_absent_eq inp chain subtree fmt hc hs hcan h130 hxml hex]
    rw [if_pos (by simp [hne])]
    exact finalMark_chain_marks _ chain (.failed (exitMessage inp.exitCode)) hroot
  · intro fmt hxml hex hstale hne
    rw [run_stale_eq inp chain subtree fmt hc hs hcan h130 hxml hex hstale]
    rw [if_pos (by simp [hne])]
    exact finalMark_chain_marks _ chain (.failed (exitMessage inp.exitCode)) hroot
  · intro fmt hxml hex hstale hempty hne
    rw [run_emptyReport_eq inp chain subtree fmt hc hs hcan h130 hxml hex hstale hempty]
    rw [if_pos (by simp [hne])]
    exact finalMark_chain_marks _ chain (.failed (exitMessage inp.exitCode)) hroot
  · intro fmt hxml hex hstale hempty hnofail hne
    rw [run_processing_eq inp chain subtree fmt hc hs hcan h130 hxml hex hstale hempty]
    rw [if_pos (by rw [hnofail]; simp [hne])]
    exact finalMark_chain_marks3 _ _ _ chain (.failed (exitMessage inp.exitCode)) hroot
  · intro n
    unfold strContainsSub exitMessage
    have h : ("Codeception exited with code " ++ toString n).data
        = "Codeception exited with code ".data ++ ((toString n).data ++ []) := by
      simp [string_data_append]
    rw [h]
    exact listContainsSub_of_middle _ _ _

/-- C3 witness: Scenario A (exit 0, only html configured) ends the run root
passed; Scenario B (exit 2, junit configured, report absent) ends it failed
with a message containing "2"; and the same failed verdict holds at exit 2
with the report present but stale, and with the report present and fresh but
holding no testcase records. -/
theorem c3_exit_code_policy_witness :
    finalMark (runCodeceptionTest
        ⟨c4Forest, .projectR 0, ["html"], false, 0, false, false, emptyDoc⟩).marks "p"
      = some (Mark.passed "p") ∧
    finalMark (runCodeceptionTest
        ⟨c4Forest, .projectR 0, ["junit"], false, 2, false, false, emptyDoc⟩).marks "p"
      = some (Mark.failed "p" (exitMessage 2)) ∧
    finalMark (runCodeceptionTest
        ⟨c4Forest, .projectR 0, ["junit"], false, 2, true, true, emptyDoc⟩).marks "p"
      = some (Mark.failed "p" (exitMessage 2)) ∧
    finalMark (runCodeceptionTest
        ⟨c4Forest, .projectR 0, ["junit"], false, 2, true, false, emptyDoc⟩).marks "p"
      = some (Mark.failed "p" (exitMessage 2)) ∧
    strContainsSub (exitMessage 2) "2" = true := by
  have hA := (c3_exit_code_policy
      ⟨c4Forest, .projectR 0, ["html"], false, 0, false, false, emptyDoc⟩
      ["p"] ["p", "s", "f", "m"] (by decide) (by decide) rfl (by decide)).1
      (by decide) rfl
  have hB := (c3_exit_code_policy
      ⟨c4Forest, .projectR 0, ["junit"], false, 2, false, false, emptyDoc⟩
      ["p"] ["p", "s", "f", "m"] (by decide) (by decide) rfl (by decide)).2.2.1
      ReportType.junit (by decide) rfl (by decide)
  have hS := (c3_exit_code_policy
      ⟨c4Forest, .projectR 0, ["junit"], false, 2, true, true, emptyDoc⟩
      ["p"] ["p", "s", "f", "m"] (by decide) (by decide) rfl (by decide)).2.2.2.1
      ReportType.junit (by decide) rfl rfl (by decide)
  have hE := (c3_exit_code_policy
      ⟨c4Forest, .projectR 0, ["junit"], false, 2, true, false, emptyDoc⟩
      ["p"] ["p", "s", "f", "m"] (by decide) (by decide) rfl (by decide)).2.2.2.2.1
      ReportType.junit (by decide) rfl rfl (by decide) (by decide)
  have hC := (c3_exit_code_policy
      ⟨c4Forest, .projectR 0, ["junit"], false, 2, false, false, emptyDoc⟩
      ["p"] ["p", "s", "f", "m"] (by decide) (by decide) rfl (by decide)).2.2.2.2.2.2 2
  refine ⟨hA, hB, hS, hE, ?_⟩
  have ht : toString (2 : Int) = "2" := by decide
  rw [← ht]
  exact hC

theorem marksFor_chainMarks_ne_nil {id : String} (chain : List String) (o : TestOutcome)
    (hid : id ∈ chain) : marksFor id (finalizeChainMarks chain o) ≠ [] := by
  unfold finalizeChainMarks
  rw [marksFor_map_eq id _ (markOfOutcome_idOf o)]
  intro h
  exact filter_strEq_ne_nil hid (List.map_eq_nil_iff.mp h)

theorem marksFor_subMarks_ne_nil {id : String} (subtree : List String)
    (out : List (String × Flags)) (hid : id ∈ subtree) :
    marksFor id (subtree.map (finalizeSubtreeMark out)) ≠ [] := by
  rw [marksFor_map_eq id _ (finalizeSubtreeMark_idOf out)]
  intro h
  exact filter_strEq_ne_nil hid (List.map_eq_nil_iff.mp h)

/-- C1 (amended): in runs that reach record processing (report present, fresh,
at least one record, not cancelled), every node marked started reaches a
terminal state by the end of `runCodeceptionTest`; and every started strict
descendant of the run root that received no outcome from the record-processing
fold is resolved as skipped.  (On the report-absent/stale/empty paths, and for
the ancestor chain — which `finalizeChain` resolves from the overall verdict —
the original claim fails; see the counterexample.) -/
theorem c1_started_terminal_amended (inp : RunInput) (chain subtree : List String)
    (fmt : ReportType)
    (hc : chainIdsOf inp.forest inp.root = some chain)
    (hs : subtreeIdsOf inp.forest inp.root = some subtree)
    (hcan : inp.cancelled = false) (h130 : (inp.exitCode == 130) = false)
    (hxml : chooseXmlFormatToParse (reportTypesToGenerate inp.reportFormats) = some fmt)
    (hex : inp.reportExists = true) (hstale : inp.reportStale = false)
    (hempty : (getReportTestcases inp.reportDoc).isEmpty = false) :
    (∀ id, id ∈ chain ∨ id ∈ subtree →
      ∃ m, finalMark (runCodeceptionTest inp).marks id = some m ∧ m.isStarted = false) ∧
    (∀ id, id ∈ subtree → id ∉ chain → subtree.Nodup →
      runFoldOutcome inp id = none →
      finalMark (runCodeceptionTest inp).marks id = some (Mark.skipped id)) := by
  rw [run_processing_eq inp chain subtree fmt hc hs hcan h130 hxml hex hstale hempty]
  have hinv := recordPhase_inv inp (chain.headD "") chain.tail (getReportTestcases inp.reportDoc)
  constructor
  · intro id hid
    apply finalMark_terminal_of
    · intro m hm
      rcases List.mem_append.mp hm with hm | hm
      · exact hinv.1 m hm
      · rcases List.mem_append.mp hm with hm | hm
        · rcases List.mem_map.mp hm with ⟨x, _, hx⟩
          rw [← hx]
          exact finalizeSubtreeMark_not_started _ _
        · by_cases hcond : (inp.exitCode != 0 &&
              !(recordPhase inp (chain.headD "") chain.tail
                (getReportTestcases inp.reportDoc)).hadFailure) = true
          · rw [if_pos hcond] at hm
            exact finalizeChainMarks_not_started chain _ m hm
          · rw [if_neg (by simpa using hcond)] at hm
            exact finalizeChainMarks_not_started chain _ m hm
    · rcases hid with hid | hid
      · intro hnil
        rw [marksFor_append, marksFor_append] at hnil
        rcases List.append_eq_nil.mp hnil with ⟨_, h2⟩
        rcases List.append_eq_nil.mp h2 with ⟨_, h4⟩
        by_cases hcond : (inp.exitCode != 0 &&
            !(recordPhase inp (chain.headD "") chain.tail
              (getReportTestcases inp.reportDoc)).hadFailure) = true
        · rw [if_pos hcond] at h4
          exact marksFor_chainMarks_ne_nil chain _ hid h4
        · rw [if_neg (by simpa using hcond)] at h4
          exact marksFor_chainMarks_ne_nil chain _ hid h4
      · intro hnil
        rw [marksFor_append, marksFor_append] at hnil
        rcases List.append_eq_nil.mp hnil with ⟨_, h2⟩
        rcases List.append_eq_nil.mp h2 with ⟨h3, _⟩
        exact marksFor_subMarks_ne_nil subtree _ hid h3
  · intro id hsub hnch hnodup hfold
    have hlook : alistLookup id
        (recordPhase inp (chain.headD "") chain.tail
          (getReportTestcases inp.reportDoc)).subtreeOutcome = none := by
      unfold runFoldOutcome at hfold
      rw [hc] at hfold
      exact hfold
    have hP : marksFor id
        (recordPhase inp (chain.headD "") chain.tail
          (getReportTestcases inp.reportDoc)).marks = [] := by
      apply List.filter_eq_nil_iff.mpr
      intro m hm
      intro hsm
      have hid2 : m.idOf = id := strEq_iff.mp hsm
      have := hinv.2 m hm
      rw [hid2, hlook] at this
      exact this rfl
    have hU : marksFor id
        (subtree.map (finalizeSubtreeMark
          (recordPhase inp (chain.headD "") chain.tail
            (getReportTestcases inp.reportDoc)).subtreeOutcome)) = [Mark.skipped id] := by
      rw [marksFor_map_eq id _ (finalizeSubtreeMark_idOf _)]
      rw [filter_strEq_of_nodup hnodup hsub]
      rw [List.map_singleton]
      unfold finalizeSubtreeMark
      rw [hlook]
    have hE : ∀ o : TestOutcome, marksFor id (finalizeChainMarks chain o) = [] := by
      intro o
      unfold finalizeChainMarks
      rw [marksFor_map_eq id _ (markOfOutcome_idOf o)]
      rw [filter_strEq_eq_nil hnch]
      rfl
    unfold finalMark
    rw [marksFor_append, marksFor_append, marksFor_append, hP, hU]
    have hE2 : marksFor id
        (if (inp.exitCode != 0 &&
            !(recordPhase inp (chain.headD "") chain.tail
              (getReportTestcases inp.reportDoc)).hadFailure) = true then
          finalizeChainMarks chain (.failed (exitMessage inp.exitCode))
        else
          finalizeChainMarks chain
            (if (recordPhase inp (chain.headD "") chain.tail
                (getReportTestcases inp.reportDoc)).hadFailure = true
             then .failed "One or more child tests failed" else .passed)) = [] := by
      by_cases hcond : (inp.exitCode != 0 &&
          !(recordPhase inp (chain.headD "") chain.tail
            (getReportTestcases inp.reportDoc)).hadFailure) = true
      · rw [if_pos hcond]
        exact hE _
      · rw [if_neg (by simpa using hcond)]
        exact hE _
    rw [hE2]
    rw [List.nil_append, List.append_nil]
    apply List.getLast?_append_of_ne_nil
    simp

/-- C1 counterexample: with the report file absent and exit code 0, the run
returns after the started marks with no finalization at all — the run root `p`
(and every other started node) keeps `started` as its final state, so the claim
that every started node reaches a terminal state identically in the
report-absent case is false. -/
theorem c1_started_terminal_counterexample :
    c1AbsentInput.reportExists = false ∧
    c1AbsentInput.exitCode = 0 ∧
    Mark.started "p" ∈ (runCodeceptionTest c1AbsentInput).marks ∧
    finalMark (runCodeceptionTest c1AbsentInput).marks "p" = some (Mark.started "p") ∧
    (finalMark (runCodeceptionTest c1AbsentInput).marks "p").map Mark.isStarted = some true := by
  decide

/-- C1 witness: a fresh one-record report matching nothing in the tree leaves
the suite node `s` without any fold outcome, and `s` resolves as skipped. -/
theorem c1_started_terminal_amended_witness :
    runFoldOutcome
      ⟨c4Forest, .projectR 0, ["junit"], false, 0, true, false,
        ⟨some (JNode.mk [⟨some "x", some "/other/Zed.php", none, none, none, none⟩] []), [], []⟩⟩
      "s" = none ∧
    finalMark (runCodeceptionTest
      ⟨c4Forest, .projectR 0, ["junit"], false, 0, true, false,
        ⟨some (JNode.mk [⟨some "x", some "/other/Zed.php", none, none, none, none⟩] []), [], []⟩⟩).marks
      "s" = some (Mark.skipped "s") := by
  refine ⟨by decide, ?_⟩
  exact (c1_started_terminal_amended
    ⟨c4Forest, .projectR 0, ["junit"], false, 0, true, false,
      ⟨some (JNode.mk [⟨some "x", some "/other/Zed.php", none, none, none, none⟩] []), [], []⟩⟩
    ["p"] ["p", "s", "f", "m"] ReportType.junit
    (by decide) (by decide) rfl (by decide) (by decide) rfl rfl (by decide)).2
    "s" (by decide) (by decide) (by decide) (by decide)

theorem extract_some_ne_empty {f a : String} (h : extractDatasetFromFeature f = some a) :
    f.data.isEmpty = false := by
  cases hd : f.data with
  | nil =>
    unfold extractDatasetFromFeature at h
    rw [hd] at h
    cases h
  | cons c cs => rfl

theorem c4_match1 (f1 A : String) (h1 : extractDatasetFromFeature f1 = some A) :
    matchRecord c4Forest "p" [] (c4Record1 f1)
      = ⟨c4ForestWith [⟨"m::data::0", "[0] " ++ A, some "/ws/tests/unit/FooTest.php"⟩],
         "m::data::0", ["m", "f", "s", "p"], some ("m", ["f", "s", "p"])⟩ := by
  have hf1 := extract_some_ne_empty h1
  have hget : getOrCreateDatasetItem ⟨"m", "testFoo", some "/ws/tests/unit/FooTest.php", []⟩ A
      = (⟨"m", "testFoo", some "/ws/tests/unit/FooTest.php",
          [⟨"m::data::0", "[0] " ++ A, some "/ws/tests/unit/FooTest.php"⟩]⟩, "m::data::0", true) := by
    simp only [getOrCreateDatasetItem]
    rw [show findReusableDataset A [] = none from rfl]
    rw [show ("m" ++ "::data::" ++ toString ((maxDatasetIndex [] + 1).toNat))
          = "m::data::0" from by decide]
    rw [show ("[" ++ toString ((maxDatasetIndex [] + 1).toNat) ++ "] ") = "[0] " from by decide]
    simp
  have hfind : findFileLoc "/ws/tests/unit/FooTest.php" c4Forest
      = some (0, ⟨"p", "WS", some "/ws",
          [⟨"s", "unit", some "/ws/tests/unit",
            [⟨"f", "FooTest.php", some "/ws/tests/unit/FooTest.php",
              [⟨"m", "testFoo", some "/ws/tests/unit/FooTest.php", []⟩]⟩]⟩]⟩, 0,
          ⟨"s", "unit", some "/ws/tests/unit",
            [⟨"f", "FooTest.php", some "/ws/tests/unit/FooTest.php",
              [⟨"m", "testFoo", some "/ws/tests/unit/FooTest.php", []⟩]⟩]⟩, 0,
          ⟨"f", "FooTest.php", some "/ws/tests/unit/FooTest.php",
            [⟨"m", "testFoo", some "/ws/tests/unit/FooTest.php", []⟩]⟩) := by
    decide
  have hmeth : findMethodInFile "testFoo" (stripDataSetSuffix "testFoo")
      [⟨"m", "testFoo", some "/ws/tests/unit/FooTest.php", []⟩]
      = some (0, ⟨"m", "testFoo", some "/ws/tests/unit/FooTest.php", []⟩) := by decide
  have hname : jsOr (c4Record1 f1).name "unknown" = "testFoo" := rfl
  have hfile : jsOr (c4Record1 f1).file "" = "/ws/tests/unit/FooTest.php" := rfl
  have hfeat : jsOr (c4Record1 f1).feature "" = f1 := by
    simp [c4Record1, jsOr, hf1]
  simp only [matchRecord, hname, hfile, hfeat, hf1, Bool.not_false, h1, hfind, hmeth]
  simp [c4ForestWith, c4Forest, updateMethodAt, listModify, hget]

theorem c4_proc1 (f1 A : String) (h1 : extractDatasetFromFeature f1 = some A) :
    processRecord "p" [] ⟨c4Forest, [], false, [], []⟩ (c4Record1 f1)
      = ⟨c4ForestWith [⟨"m::data::0", "[0] " ++ A, some "/ws/tests/unit/FooTest.php"⟩],
         [Mark.failed "m::data::0" "assertion failed"], true,
         [("m::data::0", ⟨true, false, false⟩), ("m", ⟨true, false, false⟩),
          ("f", ⟨true, false, false⟩), ("s", ⟨true, false, false⟩),
          ("p", ⟨true, false, false⟩)],
         [("m", (["f", "s", "p"], ⟨true, false, false⟩))]⟩ := by
  have htc : tcOutcome (c4Record1 f1) = .failed "assertion failed" := rfl
  simp only [processRecord, c4_match1 f1 A h1, htc, ProcState.mk.injEq]
  exact ⟨trivial, by decide, by decide, by decide, by decide⟩

theorem c4_match2 (f2 A B : String) (h2 : extractDatasetFromFeature f2 = some B)
    (h3 : strEndsWith ("[0] " ++ A) (" " ++ B) = false) :
    matchRecord (c4ForestWith [⟨"m::data::0", "[0] " ++ A, some "/ws/tests/unit/FooTest.php"⟩])
        "p" [] (c4Record2 f2)
      = ⟨c4ForestWith [⟨"m::data::0", "[0] " ++ A, some "/ws/tests/unit/FooTest.php"⟩,
            ⟨"m::data::1", "[1] " ++ B, some "/ws/tests/unit/FooTest.php"⟩],
         "m::data::1", ["m", "f", "s", "p"], some ("m", ["f", "s", "p"])⟩ := by
  have hf2 := extract_some_ne_empty h2
  have hreuse : findReusableDataset B
      [⟨"m::data::0", "[0] " ++ A, some "/ws/tests/unit/FooTest.php"⟩] = none := by
    unfold findReusableDataset
    rw [h3]
    simp [findReusableDataset]
  have hget : getOrCreateDatasetItem
      ⟨"m", "testFoo", some "/ws/tests/unit/FooTest.php",
        [⟨"m::data::0", "[0] " ++ A, some "/ws/tests/unit/FooTest.php"⟩]⟩ B
      = (⟨"m", "testFoo", some "/ws/tests/unit/FooTest.php",
          [⟨"m::data::0", "[0] " ++ A, some "/ws/tests/unit/FooTest.php"⟩,
           ⟨"m::data::1", "[1] " ++ B, some "/ws/tests/unit/FooTest.php"⟩]⟩,
         "m::data::1", true) := by
    simp only [getOrCreateDatasetItem, hreuse]
    rw [show maxDatasetIndex
        [⟨"m::data::0", "[0] " ++ A, some "/ws/tests/unit/FooTest.php"⟩] = (0 : Int) from rfl]
    rw [show ("m" ++ "::data::" ++ toString (((0 : Int) + 1).toNat)) = "m::data::1" from by decide]
    rw [show ("[" ++ toString (((0 : Int) + 1).toNat) ++ "] ") = "[1] " from by decide]
    simp
  have hfind : findFileLoc "/ws/tests/unit/FooTest.php"
      (c4ForestWith [⟨"m::data::0", "[0] " ++ A, some "/ws/tests/unit/FooTest.php"⟩])
      = some (0, ⟨"p", "WS", some "/ws",
          [⟨"s", "unit", some "/ws/tests/unit",
            [⟨"f", "FooTest.php", some "/ws/tests/unit/FooTest.php",
              [⟨"m", "testFoo", some "/ws/tests/unit/FooTest.php",
                [⟨"m::data::0", "[0] " ++ A, some "/ws/tests/unit/FooTest.php"⟩]⟩]⟩]⟩]⟩, 0,
          ⟨"s", "unit", some "/ws/tests/unit",
            [⟨"f", "FooTest.php", some "/ws/tests/unit/FooTest.php",
              [⟨"m", "testFoo", some "/ws/tests/unit/FooTest.php",
                [⟨"m::data::0", "[0] " ++ A, some "/ws/tests/unit/FooTest.php"⟩]⟩]⟩]⟩, 0,
          ⟨"f", "FooTest.php", some "/ws/tests/unit/FooTest.php",
            [⟨"m", "testFoo", some "/ws/tests/unit/FooTest.php",
              [⟨"m::data::0", "[0] " ++ A, some "/ws/tests/unit/FooTest.php"⟩]⟩]⟩) := rfl
  have hmeth : findMethodInFile "testFoo" (stripDataSetSuffix "testFoo")
      [⟨"m", "testFoo", some "/ws/tests/unit/FooTest.php",
        [⟨"m::data::0", "[0] " ++ A, some "/ws/tests/unit/FooTest.php"⟩]⟩]
      = some (0, ⟨"m", "testFoo", some "/ws/tests/unit/FooTest.php",
          [⟨"m::data::0", "[0] " ++ A, some "/ws/tests/unit/FooTest.php"⟩]⟩) := rfl
  have hname : jsOr (c4Record2 f2).name "unknown" = "testFoo" := rfl
  have hfile : jsOr (c4Record2 f2).file "" = "/ws/tests/unit/FooTest.php" := rfl
  have hfeat : jsOr (c4Record2 f2).feature "" = f2 := by
    simp [c4Record2, jsOr, hf2]
  simp only [matchRecord, hname, hfile, hfeat, hf2, Bool.not_false, h2, hfind, hmeth]
  simp [c4ForestWith, updateMethodAt, listModify, hget]

theorem c4_proc2 (f2 A B : String) (h2 : extractDatasetFromFeature f2 = some B)
    (h3 : strEndsWith ("[0] " ++ A) (" " ++ B) = false) :
    processRecord "p" []
        ⟨c4ForestWith [⟨"m::data::0", "[0] " ++ A, some "/ws/tests/unit/FooTest.php"⟩],
         [Mark.failed "m::data::0" "assertion failed"], true,
         [("m::data::0", ⟨true, false, false⟩), ("m", ⟨true, false, false⟩),
          ("f", ⟨true, false, false⟩), ("s", ⟨true, false, false⟩),
          ("p", ⟨true, false, false⟩)],
         [("m", (["f", "s", "p"], ⟨true, false, false⟩))]⟩ (c4Record2 f2)
      = ⟨c4ForestWith [⟨"m::data::0", "[0] " ++ A, some "/ws/tests/unit/FooTest.php"⟩,
            ⟨"m::data::1", "[1] " ++ B, some "/ws/tests/unit/FooTest.php"⟩],
         [Mark.failed "m::data::0" "assertion failed", Mark.passed "m::data::1"], true,
         [("m::data::0", ⟨true, false, false⟩), ("m", ⟨true, true, false⟩),
          ("f", ⟨true, true, false⟩), ("s", ⟨true, true, false⟩),
          ("p", ⟨true, true, false⟩), ("m::data::1", ⟨false, true, false⟩)],
         [("m", (["f", "s", "p"], ⟨true, true, false⟩))]⟩ := by
  have htc : tcOutcome (c4Record2 f2) = .passed := rfl
  simp only [processRecord, c4_match2 f2 A B h2 h3, htc, ProcState.mk.injEq]
  exact ⟨trivial, by decide, by decide, by decide, by decide⟩

theorem c4_recordPhase (f1 f2 A B : String)
    (h1 : extractDatasetFromFeature f1 = some A)
    (h2 : extractDatasetFromFeature f2 = some B)
    (h3 : strEndsWith ("[0] " ++ A) (" " ++ B) = false) :
    recordPhase (c4Input f1 f2) (["p"].headD "") (["p"].tail)
        (getReportTestcases (c4Input f1 f2).reportDoc)
      = ⟨c4ForestWith [⟨"m::data::0", "[0] " ++ A, some "/ws/tests/unit/FooTest.php"⟩,
            ⟨"m::data::1", "[1] " ++ B, some "/ws/tests/unit/FooTest.php"⟩],
         [Mark.failed "m::data::0" "assertion failed", Mark.passed "m::data::1",
          Mark.failed "m" "One or more datasets failed"], true,
         [("m::data::0", ⟨true, false, false⟩), ("m", ⟨true, true, false⟩),
          ("f", ⟨true, true, false⟩), ("s", ⟨true, true, false⟩),
          ("p", ⟨true, true, false⟩), ("m::data::1", ⟨false, true, false⟩)],
         [("m", (["f", "s", "p"], ⟨true, true, false⟩))]⟩ := by
  have hdoc : getReportTestcases (c4Input f1 f2).reportDoc = [c4Record1 f1, c4Record2 f2] := rfl
  have hst0 : (⟨(c4Input f1 f2).forest, [], false, [], []⟩ : ProcState)
      = ⟨c4Forest, [], false, [], []⟩ := rfl
  simp only [recordPhase, hdoc, List.headD_cons, List.tail_cons, List.foldl_cons,
    List.foldl_nil, hst0, c4_proc1 f1 A h1, c4_proc2 f2 A B h2 h3]
  have hagg : aggStep "p"
      ⟨c4ForestWith [⟨"m::data::0", "[0] " ++ A, some "/ws/tests/unit/FooTest.php"⟩,
            ⟨"m::data::1", "[1] " ++ B, some "/ws/tests/unit/FooTest.php"⟩],
         [Mark.failed "m::data::0" "assertion failed", Mark.passed "m::data::1"], true,
         [("m::data::0", ⟨true, false, false⟩), ("m", ⟨true, true, false⟩),
          ("f", ⟨true, true, false⟩), ("s", ⟨true, true, false⟩),
          ("p", ⟨true, true, false⟩), ("m::data::1", ⟨false, true, false⟩)],
         [("m", (["f", "s", "p"], ⟨true, true, false⟩))]⟩
      ("m", (["f", "s", "p"], ⟨true, true, false⟩))
      = ⟨c4ForestWith [⟨"m::data::0", "[0] " ++ A, some "/ws/tests/unit/FooTest.php"⟩,
            ⟨"m::data::1", "[1] " ++ B, some "/ws/tests/unit/FooTest.php"⟩],
         [Mark.failed "m::data::0" "assertion failed", Mark.passed "m::data::1",
          Mark.failed "m" "One or more datasets failed"], true,
         [("m::data::0", ⟨true, false, false⟩), ("m", ⟨true, true, false⟩),
          ("f", ⟨true, true, false⟩), ("s", ⟨true, true, false⟩),
          ("p", ⟨true, true, false⟩), ("m::data::1", ⟨false, true, false⟩)],
         [("m", (["f", "s", "p"], ⟨true, true, false⟩))]⟩ := by
    simp only [aggStep, ProcState.mk.injEq]
    norm_num
    decide
  exact hagg

/-- C4 (amended): Scenario D with the label-suffix caveat.  For a run whose
report holds, for one method, a failing record with decoded data-set text `A`
and a clean record with decoded text `B` such that the first child's label
`[0] A` does not end in a space followed by `B` (which forces `A ≠ B`; without
this condition the suffix scan reuses the first child — see the
counterexample): two dataset children labelled `[0] A` and `[1] B` are created
in order of first appearance, the method node is re-resolved by the
failed-dominates fold and ends failed, and the failure propagates so the run
root ends failed. -/
theorem c4_dataset_scenario_amended (f1 f2 A B : String)
    (h1 : extractDatasetFromFeature f1 = some A)
    (h2 : extractDatasetFromFeature f2 = some B)
    (h3 : strEndsWith ("[0] " ++ A) (" " ++ B) = false) :
    c4MethodDatasetLabels (runCodeceptionTest (c4Input f1 f2)) = ["[0] " ++ A, "[1] " ++ B] ∧
    finalMark (runCodeceptionTest (c4Input f1 f2)).marks "m"
      = some (Mark.failed "m" "One or more child tests failed") ∧
    finalMark (runCodeceptionTest (c4Input f1 f2)).marks "p"
      = some (Mark.failed "p" "One or more child tests failed") := by
  have hrun := run_processing_eq (c4Input f1 f2) ["p"] ["p", "s", "f", "m"] ReportType.junit
    (by decide : chainIdsOf c4Forest (RunRoot.projectR 0) = some ["p"])
    (by decide : subtreeIdsOf c4Forest (RunRoot.projectR 0) = some ["p", "s", "f", "m"])
    rfl
    (by decide : ((0 : Int) == 130) = false)
    (by decide : chooseXmlFormatToParse (reportTypesToGenerate ["junit"]) = some ReportType.junit)
    rfl rfl rfl
  rw [c4_recordPhase f1 f2 A B h1 h2 h3] at hrun
  have hmarks : (runCodeceptionTest (c4Input f1 f2)).marks
      = [Mark.started "p", Mark.started "s", Mark.started "f", Mark.started "m",
         Mark.failed "m::data::0" "assertion failed", Mark.passed "m::data::1",
         Mark.failed "m" "One or more datasets failed",
         Mark.failed "p" "One or more child tests failed",
         Mark.failed "s" "One or more child tests failed",
         Mark.failed "f" "One or more child tests failed",
         Mark.failed "m" "One or more child tests failed",
         Mark.failed "p" "One or more child tests failed"] := by
    rw [hrun]
    rfl
  have hforest : (runCodeceptionTest (c4Input f1 f2)).forest
      = c4ForestWith [⟨"m::data::0", "[0] " ++ A, some "/ws/tests/unit/FooTest.php"⟩,
          ⟨"m::data::1", "[1] " ++ B, some "/ws/tests/unit/FooTest.php"⟩] := by
    rw [hrun]
  refine ⟨?_, ?_, ?_⟩
  · unfold c4MethodDatasetLabels
    rw [hforest]
    simp [c4ForestWith]
  · rw [hmarks]
    decide
  · rw [hmarks]
    decide

/-- C4 counterexample: with decoded texts `1 2` (failing record, first) and `2`
(clean record, second) — distinct texts — the claim predicts two dataset
children `[0] 1 2` and `[1] 2`; the suffix scan instead matches `[0] 1 2`
against ` 2` and reuses it, so only one child exists and no node
`m::data::1` is ever created. -/
theorem c4_dataset_scenario_counterexample :
    extractDatasetFromFeature "x|1 2" = some "1 2" ∧
    extractDatasetFromFeature "x|2" = some "2" ∧
    ("1 2" = "2" → False) ∧
    c4MethodDatasetLabels (runCodeceptionTest (c4Input "x|1 2" "x|2")) = ["[0] 1 2"] ∧
    finalMark (runCodeceptionTest (c4Input "x|1 2" "x|2")).marks "m::data::1" = none := by
  decide

/-- C4 witness: with texts `a` and `b` the two children `[0] a` and `[1] b`
are created and the method and run root end failed. -/
theorem c4_dataset_scenario_amended_witness :
    extractDatasetFromFeature "x|a" = some "a" ∧
    extractDatasetFromFeature "x|b" = some "b" ∧
    strEndsWith ("[0] " ++ "a") (" " ++ "b") = false ∧
    c4MethodDatasetLabels (runCodeceptionTest (c4Input "x|a" "x|b"))
      = ["[0] " ++ "a", "[1] " ++ "b"] ∧
    finalMark (runCodeceptionTest (c4Input "x|a" "x|b")).marks "m"
      = some (Mark.failed "m" "One or more child tests failed") ∧
    finalMark (runCodeceptionTest (c4Input "x|a" "x|b")).marks "p"
      = some (Mark.failed "p" "One or more child tests failed") := by
  have h := c4_dataset_scenario_amended "x|a" "x|b" "a" "b" (by decide) (by decide) (by decide)
  exact ⟨by decide, by decide, by decide, h.1, h.2.1, h.2.2⟩
